import Mathlib

/-!
Verification development for the `install-tx3-nextjs` CLI.

The repository is a project-scaffolding / dependency-installer CLI. Its core
logic, embedded shallowly here, is:

  * `src/templates/next-config.ts` — `generateNextConfig`: textual merge of a
    fixed webpack block into a Next.js config file by substring detection and
    per-line brace counting;
  * `src/commands/install.ts` — `updateTsConfig`: JSON merge of two TX3 path
    mappings into `tsconfig.json`, and `installCommand`: the
    backup → mutate → rollback-on-failure pipeline;
  * `src/commands/init.ts` — `initCommand`: scaffold a project directory, chdir
    into it, run the install pipeline, best-effort cleanup on failure.

The repository's `utils/` modules (`FileUtils`, `PackageUtils`,
`ProjectValidator`, `TrixInstaller`, `DevnetInstaller`) are not part of the
sources provided; where the pipeline needs them they are modelled from the
spec, and each such definition carries a doc comment saying so.

JavaScript's `JSON.parse` and `JSON.stringify(·, null, 2)` are platform
functions, not repository code; they are modelled executably below over a
JSON value type whose numbers are integers (texts with fractional or exponent
number literals are treated as unparsable by the model) and whose strings are
Unicode scalar sequences (no lone surrogates).
-/

/-- JSON values as produced by `JSON.parse`, with integer numbers.
Object fields are kept in insertion order, as JavaScript does for
string-keyed properties. -/
inductive JsonVal : Type where
  | null : JsonVal
  | bool : Bool → JsonVal
  | num : Int → JsonVal
  | str : String → JsonVal
  | arr : List JsonVal → JsonVal
  | obj : List (String × JsonVal) → JsonVal

/-- Property lookup on a JavaScript object: first binding for the key. -/
def jsGet : List (String × JsonVal) → String → Option JsonVal
  | [], _ => none
  | (k, v) :: rest, key => if k = key then some v else jsGet rest key

/-- Property assignment on a JavaScript object: overwrite in place if the key
exists (keeping its position), otherwise append at the end — JavaScript's
insertion-order semantics for string keys. -/
def jsSet : List (String × JsonVal) → String → JsonVal → List (String × JsonVal)
  | [], key, val => [(key, val)]
  | (k, v) :: rest, key, val =>
      if k = key then (k, val) :: rest else (k, v) :: jsSet rest key val

/-- JavaScript truthiness of a JSON value. -/
def jsTruthy : JsonVal → Bool
  | .null => false
  | .bool b => b
  | .num n => n != 0
  | .str s => s != ""
  | .arr _ => true
  | .obj _ => true

/-- The decimal digit character for `n < 10`. -/
def digitChar (n : Nat) : Char := Char.ofNat (48 + n)

/-- Decimal digits of a natural number, most significant first. -/
def natDigits (n : Nat) : List Char :=
  if n < 10 then [digitChar n]
  else natDigits (n / 10) ++ [digitChar (n % 10)]
termination_by n
decreasing_by exact Nat.div_lt_self (by omega) (by omega)

/-- Decimal rendering of an integer, as `JSON.stringify` prints an
integer-valued number. -/
def intChars (i : Int) : List Char :=
  if i < 0 then '-' :: natDigits i.natAbs else natDigits i.natAbs

/-- Lowercase hexadecimal digit character for `n < 16`. -/
def hexDigitChar (n : Nat) : Char :=
  if n < 10 then digitChar n else Char.ofNat (87 + n)

/-- How `JSON.stringify` escapes one character inside a string literal. -/
def escChar (c : Char) : List Char :=
  if c = '"' then ['\\', '"']
  else if c = '\\' then ['\\', '\\']
  else if c = '\x08' then ['\\', 'b']
  else if c = '\x09' then ['\\', 't']
  else if c = '\x0a' then ['\\', 'n']
  else if c = '\x0c' then ['\\', 'f']
  else if c = '\x0d' then ['\\', 'r']
  else if c.toNat < 32 then
    ['\\', 'u', '0', '0', hexDigitChar (c.toNat / 16), hexDigitChar (c.toNat % 16)]
  else [c]

/-- `JSON.stringify`'s escaping of a whole character sequence. -/
def escBody : List Char → List Char
  | [] => []
  | c :: cs => escChar c ++ escBody cs

/-- A JSON string literal: quotes around the escaped body. -/
def strLit (s : String) : List Char := '"' :: (escBody s.data ++ ['"'])

/-- Indentation: `n` spaces. -/
def padN (n : Nat) : List Char := List.replicate n ' '

mutual

/-- `JSON.stringify(v, null, 2)` at nesting indentation `ind`, over characters. -/
def printVal : Nat → JsonVal → List Char
  | _, .null => ['n', 'u', 'l', 'l']
  | _, .bool true => ['t', 'r', 'u', 'e']
  | _, .bool false => ['f', 'a', 'l', 's', 'e']
  | _, .num i => intChars i
  | _, .str s => strLit s
  | _, .arr [] => ['[', ']']
  | ind, .arr (x :: xs) =>
      '[' :: '\n' :: (printElems ind x xs ++ '\n' :: (padN ind ++ [']']))
  | _, .obj [] => ['{', '}']
  | ind, .obj (f :: fs) =>
      '{' :: '\n' :: (printMembers ind f fs ++ '\n' :: (padN ind ++ ['}']))
termination_by _ j => sizeOf j

/-- Array elements, one per line at indentation `ind + 2`, comma-separated. -/
def printElems : Nat → JsonVal → List JsonVal → List Char
  | ind, x, [] => padN (ind + 2) ++ printVal (ind + 2) x
  | ind, x, y :: ys =>
      padN (ind + 2) ++ printVal (ind + 2) x ++ ',' :: '\n' :: printElems ind y ys
termination_by _ x xs => 1 + sizeOf x + sizeOf xs

/-- Object members, one per line at indentation `ind + 2`, comma-separated. -/
def printMembers : Nat → (String × JsonVal) → List (String × JsonVal) → List Char
  | ind, (k, v), [] =>
      padN (ind + 2) ++ strLit k ++ ':' :: ' ' :: printVal (ind + 2) v
  | ind, (k, v), f :: fs =>
      padN (ind + 2) ++ strLit k ++ ':' :: ' ' :: printVal (ind + 2) v
        ++ ',' :: '\n' :: printMembers ind f fs
termination_by _ f fs => 1 + sizeOf f + sizeOf fs

end

/-- `JSON.stringify(v, null, 2)` as a string. -/
def jsonStringify2 (v : JsonVal) : String := String.mk (printVal 0 v)

/-- JSON whitespace, as `JSON.parse` skips it. -/
def isWsChar (c : Char) : Bool := c = ' ' || c = '\t' || c = '\n' || c = '\r'

/-- Drop leading JSON whitespace. -/
def skipWs : List Char → List Char
  | [] => []
  | c :: cs => if isWsChar c then skipWs cs else c :: cs

/-- Decimal digit test. -/
def isDigitCh (c : Char) : Bool := 48 ≤ c.toNat && c.toNat ≤ 57

/-- Hexadecimal digit value, if any (JSON `\uXXXX` escapes). -/
def hexVal : Char → Option Nat :=
  fun c =>
    if 48 ≤ c.toNat && c.toNat ≤ 57 then some (c.toNat - 48)
    else if 97 ≤ c.toNat && c.toNat ≤ 102 then some (c.toNat - 87)
    else if 65 ≤ c.toNat && c.toNat ≤ 70 then some (c.toNat - 55)
    else none

/-- Decode a single-character JSON escape (`\"`, `\\`, `\/`, `\b`, `\f`,
`\n`, `\r`, `\t`). -/
def escDecode (c : Char) : Option Char :=
  if c = '"' then some '"'
  else if c = '\\' then some '\\'
  else if c = '/' then some '/'
  else if c = 'b' then some '\x08'
  else if c = 'f' then some '\x0c'
  else if c = 'n' then some '\x0a'
  else if c = 'r' then some '\x0d'
  else if c = 't' then some '\x09'
  else none

/-- Body of a JSON string literal after the opening quote: characters up to the
closing quote, decoding escapes; raw control characters are rejected, as
`JSON.parse` rejects them. `\uXXXX` escapes denoting surrogate code units are
rejected by the model (Lean characters are Unicode scalars). -/
def parseStringBody : List Char → Option (List Char × List Char)
  | [] => none
  | '"' :: cs => some ([], cs)
  | '\\' :: 'u' :: h1 :: h2 :: h3 :: h4 :: cs =>
      match hexVal h1, hexVal h2, hexVal h3, hexVal h4 with
      | some a, some b, some c, some d =>
          let code := ((a * 16 + b) * 16 + c) * 16 + d
          if code.isValidChar then
            match parseStringBody cs with
            | some (l, r) => some (Char.ofNat code :: l, r)
            | none => none
          else none
      | _, _, _, _ => none
  | '\\' :: e :: cs =>
      match escDecode e with
      | some d =>
          match parseStringBody cs with
          | some (l, r) => some (d :: l, r)
          | none => none
      | none => none
  | c :: cs =>
      if c.toNat < 32 then none
      else
        match parseStringBody cs with
        | some (l, r) => some (c :: l, r)
        | none => none

/-- Greedily consume decimal digits, extending the accumulator. -/
def parseDigits : List Char → Nat → (Nat × List Char)
  | [], acc => (acc, [])
  | c :: cs, acc =>
      if isDigitCh c then parseDigits cs (acc * 10 + (c.toNat - 48))
      else (acc, c :: cs)

/-- A JSON natural-number literal: at least one digit, no leading zero, and —
a restriction of this model — no fraction or exponent part (numbers are
modelled as integers; `JSON.parse` would accept those and produce a double). -/
def parseNatNum : List Char → Option (Nat × List Char)
  | [] => none
  | c :: cs =>
      if isDigitCh c then
        if c = '0' then
          match cs with
          | d :: _ =>
              if isDigitCh d || d = '.' || d = 'e' || d = 'E' then none
              else some (0, cs)
          | [] => some (0, [])
        else
          let (n, r) := parseDigits cs (c.toNat - 48)
          match r with
          | d :: _ =>
              if d = '.' || d = 'e' || d = 'E' then none else some (n, r)
          | [] => some (n, [])
      else none

/-- A JSON number literal (integer-valued in this model). -/
def parseNumber : List Char → Option (Int × List Char)
  | '-' :: cs =>
      match parseNatNum cs with
      | some (n, r) => some (-(n : Int), r)
      | none => none
  | cs =>
      match parseNatNum cs with
      | some (n, r) => some ((n : Int), r)
      | none => none

/-- Fold a parsed member list into a JavaScript object: later duplicate keys
overwrite earlier ones, as `JSON.parse` does. -/
def objOfMembers (ms : List (String × JsonVal)) : List (String × JsonVal) :=
  ms.foldl (fun m kv => jsSet m kv.1 kv.2) []

mutual

/-- Parse one JSON value. The input must start with a non-whitespace character;
`fuel` bounds the nesting (callers pass at least the remaining input length). -/
def parseValue : Nat → List Char → Option (JsonVal × List Char)
  | 0, _ => none
  | fuel + 1, cs =>
      match cs with
      | 'n' :: 'u' :: 'l' :: 'l' :: r => some (.null, r)
      | 't' :: 'r' :: 'u' :: 'e' :: r => some (.bool true, r)
      | 'f' :: 'a' :: 'l' :: 's' :: 'e' :: r => some (.bool false, r)
      | '"' :: r =>
          match parseStringBody r with
          | some (l, rest) => some (.str (String.mk l), rest)
          | none => none
      | '[' :: r =>
          match skipWs r with
          | ']' :: rest => some (.arr [], rest)
          | r' =>
              match parseElems fuel r' with
              | some (xs, rest) => some (.arr xs, rest)
              | none => none
      | '{' :: r =>
          match skipWs r with
          | '}' :: rest => some (.obj [], rest)
          | r' =>
              match parseMembers fuel r' with
              | some (ms, rest) => some (.obj (objOfMembers ms), rest)
              | none => none
      | _ =>
          match parseNumber cs with
          | some (i, r) => some (.num i, r)
          | none => none

/-- Parse the elements of a non-empty JSON array (input already
whitespace-skipped, after the opening bracket). -/
def parseElems : Nat → List Char → Option (List JsonVal × List Char)
  | 0, _ => none
  | fuel + 1, cs =>
      match parseValue fuel cs with
      | none => none
      | some (v, r) =>
          match skipWs r with
          | ',' :: r2 =>
              match parseElems fuel (skipWs r2) with
              | some (vs, r3) => some (v :: vs, r3)
              | none => none
          | ']' :: r2 => some ([v], r2)
          | _ => none

/-- Parse the members of a non-empty JSON object (input already
whitespace-skipped, after the opening brace), in textual order. -/
def parseMembers : Nat → List Char → Option (List (String × JsonVal) × List Char)
  | 0, _ => none
  | fuel + 1, cs =>
      match cs with
      | '"' :: r =>
          match parseStringBody r with
          | none => none
          | some (k, r1) =>
              match skipWs r1 with
              | ':' :: r2 =>
                  match parseValue fuel (skipWs r2) with
                  | none => none
                  | some (v, r3) =>
                      match skipWs r3 with
                      | ',' :: r4 =>
                          match parseMembers fuel (skipWs r4) with
                          | some (ms, r5) => some ((String.mk k, v) :: ms, r5)
                          | none => none
                      | '}' :: r4 => some ([(String.mk k, v)], r4)
                      | _ => none
              | _ => none
      | _ => none

end

/-- The model of `JSON.parse`: whole-input parse, surrounding whitespace
allowed, `none` where `JSON.parse` throws (or where the model's integer-number
restriction applies). -/
def jsonParse (s : String) : Option JsonVal :=
  match parseValue (s.data.length + 1) (skipWs s.data) with
  | some (v, rest) => if skipWs rest = [] then some v else none
  | none => none

/-- JavaScript property read `base.key` where `base` may be `undefined`
(`none`). Reading a property of `null` or `undefined` throws. -/
def jsGetProp : JsonVal → String → Except String (Option JsonVal)
  | .null, key =>
      .error ("TypeError: Cannot read properties of null (reading '" ++ key ++ "')")
  | .obj m, key => .ok (jsGet m key)
  | _, _ => .ok none

/-- JavaScript property write `base.key = v`. Writing to `null` throws; writing
to a primitive throws in strict mode (the compiled sources are ES modules,
hence strict). Writing a string-keyed property to an array is modelled as an
error, which is a domain restriction rather than the program's behaviour:
JavaScript completes such writes by attaching a non-index property which
`JSON.stringify` then drops, so array-shaped configs succeed in the real
program. No theorem below asserts anything about that case. -/
def jsSetProp : JsonVal → String → JsonVal → Except String JsonVal
  | .obj m, key, v => .ok (.obj (jsSet m key v))
  | .null, key, _ =>
      .error ("TypeError: Cannot set properties of null (setting '" ++ key ++ "')")
  | .arr _, _, _ =>
      .error "model: string-keyed property assignment on an array is not supported"
  | _, key, _ =>
      .error ("TypeError: Cannot create property '" ++ key ++ "' on a primitive")

/-- Property read where the base itself may be `undefined`. -/
def jsGetPropU : Option JsonVal → String → Except String (Option JsonVal)
  | none, key =>
      .error ("TypeError: Cannot read properties of undefined (reading '" ++ key ++ "')")
  | some v, key => jsGetProp v key

/-- Property write where the base itself may be `undefined`. -/
def jsSetPropU : Option JsonVal → String → JsonVal → Except String JsonVal
  | none, key, _ =>
      .error ("TypeError: Cannot set properties of undefined (setting '" ++ key ++ "')")
  | some v, key, val => jsSetProp v key val

/-- Truthiness of a possibly-`undefined` value. -/
def jsTruthyU : Option JsonVal → Bool
  | none => false
  | some v => jsTruthy v

/-- The two TX3 path-mapping values `updateTsConfig` installs. -/
def tx3StarPaths : JsonVal := .arr [.str "./tx3/bindings/*"]

/-- The value installed at `paths["@tx3"]`. -/
def tx3Paths : JsonVal := .arr [.str "./tx3/bindings"]

/-- The tree transformation of `updateTsConfig` (src/commands/install.ts,
lines 211–223), between `JSON.parse` and `JSON.stringify`:

    if (!tsconfig.compilerOptions) tsconfig.compilerOptions = {};
    if (!tsconfig.compilerOptions.paths) tsconfig.compilerOptions.paths = {};
    tsconfig.compilerOptions.paths["@tx3/*"] = ["./tx3/bindings/*"];
    tsconfig.compilerOptions.paths["@tx3"] = ["./tx3/bindings"];

In-place mutation of a nested object is modelled by functionally writing the
updated object back into its parent (the parsed value is a tree, so there is
no aliasing). -/
def mergeTsconfig (tsconfig0 : JsonVal) : Except String JsonVal := do
  let co0 ← jsGetProp tsconfig0 "compilerOptions"
  let ts1 ←
    if !jsTruthyU co0 then jsSetProp tsconfig0 "compilerOptions" (.obj [])
    else pure tsconfig0
  let co1 ← jsGetProp ts1 "compilerOptions"
  let p0 ← jsGetPropU co1 "paths"
  let ts2 ←
    if !jsTruthyU p0 then do
      let co' ← jsSetPropU co1 "paths" (.obj [])
      jsSetProp ts1 "compilerOptions" co'
    else pure ts1
  let co2 ← jsGetProp ts2 "compilerOptions"
  let p1 ← jsGetPropU co2 "paths"
  let p2 ← jsSetPropU p1 "@tx3/*" tx3StarPaths
  let co3 ← jsSetPropU co2 "paths" p2
  let ts3 ← jsSetProp ts2 "compilerOptions" co3
  let co4 ← jsGetProp ts3 "compilerOptions"
  let p3 ← jsGetPropU co4 "paths"
  let p4 ← jsSetPropU p3 "@tx3" tx3Paths
  let co5 ← jsSetPropU co4 "paths" p4
  jsSetProp ts3 "compilerOptions" co5

/-- `updateTsConfig`'s text-to-text core (src/commands/install.ts, lines
202–226): parse the existing `tsconfig.json` content (`JSON.parse` failure is
reported as `Failed to parse tsconfig.json`), apply the merge, re-serialize
with `JSON.stringify(·, null, 2)`. -/
def updateTsConfigText (content : String) : Except String String :=
  match jsonParse content with
  | none => .error "Failed to parse tsconfig.json"
  | some tsconfig => (mergeTsconfig tsconfig).map jsonStringify2

/-- Does `needle` match at the head of `hay`? -/
def matchesAt : List Char → List Char → Bool
  | [], _ => true
  | _ :: _, [] => false
  | a :: as, b :: bs => a = b && matchesAt as bs

/-- Substring occurrence anywhere in `hay`. -/
def hasSubList : List Char → List Char → Bool
  | needle, [] => matchesAt needle []
  | needle, c :: t => matchesAt needle (c :: t) || hasSubList needle t

/-- JavaScript's `s.includes(sub)`: substring containment. -/
def strIncludes (s sub : String) : Bool := hasSubList sub.data s.data

/-- The `nextConfigWebpackTemplate` string of src/templates/next-config.ts:
the TX3 webpack block spliced into Next.js configs. (Braces are written with
`\x7b`/`\x7d` escapes.) -/
def nextConfigWebpackTemplate : String :=
  "\nwebpack: (config) => \x7b\n  // Add alias for @tx3\n  config.resolve.alias = \x7b\n    ...config.resolve.alias,\n    '@tx3': './node_modules/.tx3',\n  \x7d;\n\n  // Configure webpack to handle TypeScript files in .tx3 directory\n  config.module.rules.push(\x7b\n    test: /\\.ts$/,\n    include: /node_modules\\/\\.tx3/,\n    use: [\n      \x7b\n        loader: 'ts-loader',\n        options: \x7b\n          transpileOnly: true,\n          compilerOptions: \x7b\n            module: 'esnext',\n            target: 'es2017',\n            moduleResolution: 'node',\n            esModuleInterop: true,\n            allowSyntheticDefaultImports: true,\n            skipLibCheck: true,\n          \x7d,\n        \x7d,\n      \x7d,\n    ],\n  \x7d);\n\n  return config;\n\x7d,"

/-- The complete fresh config module `generateNextConfig` emits when no
existing config is given. -/
def freshNextConfig : String :=
  "/** @type \x7bimport('next').NextConfig\x7d */\nconst nextConfig = \x7b\n  "
    ++ nextConfigWebpackTemplate ++ "\n\x7d;\n\nexport default nextConfig;\n"

/-- The ConflictError message for a pre-existing `webpack:` key. -/
def conflictMsg : String :=
  "Existing webpack configuration detected. Please manually merge the TX3 webpack configuration."

/-- The ParseError message when the config object's start line is not found. -/
def parseErrMsg : String := "Could not parse existing Next.js configuration"

/-- The ParseError message when the matching closing brace is not found. -/
def insertErrMsg : String := "Could not find insertion point in Next.js configuration"

/-- The closing-brace scan of `generateNextConfig` (src/templates/
next-config.ts, lines 61–81): from the start line, per line, add the line's
`{` count when the line has one, and once an opening brace has been seen
subtract the line's `}` count; the first line where the running count reaches
zero is the insertion index. -/
def findClose : List String → Nat → Int → Bool → Option Nat
  | [], _, _, _ => none
  | line :: rest, i, braceCount, foundOpen =>
      let nOpen : Nat := line.data.count '{'
      let nClose : Nat := line.data.count '}'
      let foundOpen2 := foundOpen || decide (0 < nOpen)
      let bc2 : Int := if 0 < nOpen then braceCount + nOpen else braceCount
      if foundOpen2 then
        let bc3 := bc2 - nClose
        if bc3 = 0 then some i else findClose rest (i + 1) bc3 foundOpen2
      else findClose rest (i + 1) bc2 foundOpen2

/-- The start-line test of `generateNextConfig` (src/templates/next-config.ts,
line 54): a line declaring the config variable or the module export. -/
def configStartPred (line : String) : Bool :=
  strIncludes line "const nextConfig" || strIncludes line "module.exports"

/-- The merge path of `generateNextConfig` for a non-empty existing config
with no `webpack:` occurrence (src/templates/next-config.ts, lines 52–92):
find the config-object start line, find its closing line by the brace scan,
and splice the two-space-indented template lines in before the closing line. -/
def mergeWebpackConfig (cfg : String) : Except String String :=
  let lines := cfg.splitOn "\n"
  match lines.findIdx? configStartPred with
  | none => .error parseErrMsg
  | some configObjectStart =>
      match findClose (lines.drop configObjectStart) configObjectStart 0 false with
      | none => .error insertErrMsg
      | some insertIndex =>
          let webpackConfig := (nextConfigWebpackTemplate.splitOn "\n").map (fun l => "  " ++ l)
          .ok (String.intercalate "\n"
            (lines.take insertIndex ++ webpackConfig ++ lines.drop insertIndex))

/-- `generateNextConfig` of src/templates/next-config.ts. `none` models the
argument being omitted; JavaScript's `!existingConfig` test is also true for
the empty string, so both yield the fresh config. Thrown errors are `.error`
values. -/
def generateNextConfig (existingConfig : Option String) : Except String String :=
  match existingConfig with
  | none => .ok freshNextConfig
  | some cfg =>
      if cfg = "" then .ok freshNextConfig
      else if strIncludes cfg "webpack:" then .error conflictMsg
      else mergeWebpackConfig cfg

/-- Lookup in a path-keyed association list (first binding). -/
def listGetS : List (String × String) → String → Option String
  | [], _ => none
  | (k, v) :: rest, key => if k = key then some v else listGetS rest key

/-- Update in a path-keyed association list: overwrite in place if present,
else append. -/
def listSetS : List (String × String) → String → String → List (String × String)
  | [], key, val => [(key, val)]
  | (k, v) :: rest, key, val =>
      if k = key then (k, val) :: rest else (k, v) :: listSetS rest key val

/-- The project directory's state as the pipeline sees it: file contents by
relative path, plus the set of directories present. -/
structure SimFS where
  files : List (String × String)
  dirs : List String

/-- File content at a path. -/
def SimFS.read (fs : SimFS) (p : String) : Option String := listGetS fs.files p

/-- Write (create or overwrite) a file. -/
def SimFS.write (fs : SimFS) (p c : String) : SimFS :=
  { fs with files := listSetS fs.files p c }

/-- Delete a file if present. -/
def SimFS.removeFile (fs : SimFS) (p : String) : SimFS :=
  { fs with files := fs.files.filter (fun kv => ¬(kv.1 = p)) }

/-- Modelled from the spec: `FileUtils.fileExists`. -/
def SimFS.fileExistsAt (fs : SimFS) (p : String) : Bool := (fs.read p).isSome

/-- Directory existence. -/
def SimFS.hasDir (fs : SimFS) (p : String) : Bool := fs.dirs.contains p

/-- Create a directory (idempotent). -/
def SimFS.mkdir (fs : SimFS) (p : String) : SimFS :=
  if fs.hasDir p then fs else { fs with dirs := fs.dirs ++ [p] }

/-- Modelled from the spec: the backup area is "a dedicated hidden backup
directory keyed by relative original path"; its actual name lives in the
missing `FileUtils` module, so a representative name is fixed here. -/
def backupDirName : String := ".tx3-backups"

/-- Modelled from the spec: `BackupEntry { originalPath, backupPath,
existedBefore }`, one per file about to be mutated. -/
structure BackupEntry where
  originalPath : String
  backupPath : String
  existedBefore : Bool

/-- Modelled from the spec: `FileUtils.ensureBackupDir` — scoped acquisition of
the backup directory, created if absent. -/
def ensureBackupDir (fs : SimFS) : SimFS := fs.mkdir backupDirName

/-- Modelled from the spec: `FileUtils.backupFile` — copy the file's current
bytes into the backup area under a path derived from the original; for a
missing file record `existedBefore = false` with no copy. (`installCommand`
only calls this on files that exist, having filtered with `fileExists`.) -/
def backupFile (fs : SimFS) (p : String) : SimFS × BackupEntry :=
  match fs.read p with
  | some c =>
      (fs.write (backupDirName ++ "/" ++ p) c,
       ⟨p, backupDirName ++ "/" ++ p, true⟩)
  | none => (fs, ⟨p, backupDirName ++ "/" ++ p, false⟩)

/-- Modelled from the spec: `FileUtils.restoreFromBackup` — if the file existed
before, copy the backup bytes back over the original unconditionally;
otherwise delete the original if present. (Restore failures are reported and
skipped in the source; the model's restores always succeed.) -/
def restoreFromBackup (fs : SimFS) (e : BackupEntry) : SimFS :=
  if e.existedBefore then
    match fs.read e.backupPath with
    | some c => fs.write e.originalPath c
    | none => fs
  else fs.removeFile e.originalPath

/-- Back up each listed file in order, collecting the entries
(the backup loop of src/commands/install.ts, lines 94–96). -/
def backupAll (fs : SimFS) : List String → SimFS × List BackupEntry
  | [] => (fs, [])
  | p :: ps =>
      let (fs1, e) := backupFile fs p
      let (fs2, es) := backupAll fs1 ps
      (fs2, e :: es)

/-- The rollback loop of src/commands/install.ts, lines 149–155: restore every
entry taken, in order. -/
def rollbackAll (backups : List BackupEntry) (fs : SimFS) : SimFS :=
  backups.foldl restoreFromBackup fs

/-- Outcomes of the external world during one install run. `pkgInstall` is the
package-manager invocation (`PackageUtils.installPackages` shells out; on
success it may rewrite `package.json`'s dependency lists — the rewritten
content, if any, is oracle-supplied). `writeOk`/`mkdirOk` are per-path
filesystem-write outcomes; `trixOk`/`devnetCopyOk` are the external
trix/tx3up install and the devnet bundle copy; `freshWritable` is
`validateFreshProject`'s directory-writability check. -/
structure InstallOracle where
  pkgInstall : Except String (Option String)
  writeOk : String → Bool
  mkdirOk : String → Bool
  trixOk : Bool
  devnetCopyOk : Bool
  freshWritable : Bool

/-- A `FileUtils.writeFile` call: performs the write, or throws per the
oracle. Errors carry the filesystem state at the throw. -/
def writeFileStep (o : InstallOracle) (fs : SimFS) (p c : String) :
    Except (String × SimFS) SimFS :=
  if o.writeOk p then .ok (fs.write p c) else .error ("Failed to write " ++ p, fs)

/-- A `FileUtils.createDirectory` call. -/
def mkdirStep (o : InstallOracle) (fs : SimFS) (p : String) :
    Except (String × SimFS) SimFS :=
  if o.mkdirOk p then .ok (fs.mkdir p) else .error ("Failed to create directory " ++ p, fs)

/-- The package-installation step of `installCommand` (src/commands/install.ts,
lines 100–114): external package-manager invocations, at most one rewrite of
`package.json`, failure aborts the step. -/
def installPackagesStep (o : InstallOracle) (fs : SimFS) :
    Except (String × SimFS) SimFS :=
  match o.pkgInstall with
  | .error e => .error (e, fs)
  | .ok none => .ok fs
  | .ok (some newPkg) => .ok (fs.write "package.json" newPkg)

/-- `updateTsConfig` of src/commands/install.ts, lines 195–227, as a pipeline
step: throw `tsconfig.json not found` if the file is missing, else transform
its content with `updateTsConfigText` and write the result back. -/
def updateTsConfigStep (o : InstallOracle) (fs : SimFS) :
    Except (String × SimFS) SimFS :=
  match fs.read "tsconfig.json" with
  | none => .error ("tsconfig.json not found", fs)
  | some content =>
      match updateTsConfigText content with
      | .error e => .error (e, fs)
      | .ok out => writeFileStep o fs "tsconfig.json" out

/-- The three script entries `installCommand` adds (src/commands/install.ts,
lines 123–127). -/
def tx3Scripts : List (String × JsonVal) :=
  [("tx3:generate", .str "node scripts/generate-tx3.mjs"),
   ("watch:tx3", .str "nodemon --watch tx3 --ext tx3 --exec \"npm run tx3:generate\""),
   ("dev", .str "concurrently \"next dev --turbopack\" \"npm run watch:tx3\"")]

/-- Modelled from the spec: `PackageUtils.addScripts` / `mergeScripts` —
"ensures a `scripts` object exists; for each entry in `scriptsToAdd`, sets it
unconditionally … All non-TX3 script entries are preserved unchanged." -/
def mergeScripts (pkg : JsonVal) (entries : List (String × JsonVal)) :
    Except String JsonVal := do
  let s0 ← jsGetProp pkg "scripts"
  let base ←
    match s0 with
    | some (.obj m) => pure m
    | some v => if jsTruthy v then .error "TypeError: scripts is not an object" else pure []
    | none => pure []
  jsSetProp pkg "scripts" (.obj (entries.foldl (fun m kv => jsSet m kv.1 kv.2) base))

/-- The add-scripts step of `installCommand` (src/commands/install.ts, lines
122–128): read and parse `package.json`, merge the TX3 script entries, write
back with 2-space indentation (`PackageUtils.readPackageJson` /
`writePackageJson` are modelled from the spec). -/
def addScriptsStep (o : InstallOracle) (fs : SimFS) :
    Except (String × SimFS) SimFS :=
  match fs.read "package.json" with
  | none => .error ("package.json not found", fs)
  | some content =>
      match jsonParse content with
      | none => .error ("Failed to parse package.json", fs)
      | some pkg =>
          match mergeScripts pkg tx3Scripts with
          | .error e => .error (e, fs)
          | .ok pkg' => writeFileStep o fs "package.json" (jsonStringify2 pkg')

/-- Modelled from the spec: the static template files are opaque external
artifacts; these placeholders stand for their literal bytes
(`src/templates/trix-toml.ts`, `main-tx3.ts`, `generate-script.ts` are not
among the provided sources). -/
def trixTomlTemplate : String := "TRIX_TOML_TEMPLATE_BYTES"

/-- Modelled from the spec: opaque bytes of `tx3/main.tx3`. -/
def mainTx3Template : String := "MAIN_TX3_TEMPLATE_BYTES"

/-- Modelled from the spec: opaque bytes of `scripts/generate-tx3.mjs`. -/
def generateScriptTemplate : String := "GENERATE_SCRIPT_TEMPLATE_BYTES"

/-- `createTx3Files` of src/commands/install.ts, lines 229–242: create the
`tx3` and `scripts` directories, then write the three template files. -/
def createTx3FilesStep (o : InstallOracle) (fs : SimFS) :
    Except (String × SimFS) SimFS := do
  let fs ← mkdirStep o fs "tx3"
  let fs ← mkdirStep o fs "scripts"
  let fs ← writeFileStep o fs "tx3/trix.toml" trixTomlTemplate
  let fs ← writeFileStep o fs "tx3/main.tx3" mainTx3Template
  writeFileStep o fs "scripts/generate-tx3.mjs" generateScriptTemplate

/-- Modelled from the spec: `DevnetInstaller.copyDevnetFolder` — copy the fixed
devnet configuration bundle into `devnet/`; the bundle's bytes are opaque. -/
def devnetBundleBytes : String := "DEVNET_BUNDLE_BYTES"

/-- `setupDevnet` of the `installCommand` variant shipped with the sources:
copy the devnet folder, then add a `devnet:start` script to `package.json`;
any error is rethrown prefixed `Failed to setup devnet:`. -/
def setupDevnetStep (o : InstallOracle) (fs : SimFS) :
    Except (String × SimFS) SimFS :=
  let run : Except (String × SimFS) SimFS := do
    let fs ←
      if o.devnetCopyOk then
        pure ((fs.mkdir "devnet").write "devnet/config" devnetBundleBytes)
      else .error ("devnet copy failed", fs)
    match fs.read "package.json" with
    | none => .error ("package.json not found", fs)
    | some content =>
        match jsonParse content with
        | none => .error ("Failed to parse package.json", fs)
        | some pkg =>
            match mergeScripts pkg [("devnet:start", .str "cd devnet && dolos daemon")] with
            | .error e => .error (e, fs)
            | .ok pkg' => writeFileStep o fs "package.json" (jsonStringify2 pkg')
  match run with
  | .ok fs' => .ok fs'
  | .error (e, fsE) => .error ("Failed to setup devnet: " ++ e, fsE)

/-- The warning logged when the best-effort trix install fails. -/
def trixWarning : String := "trix installation failed, but continuing with TX3 setup"

/-- The warning logged when the best-effort devnet setup fails. -/
def devnetWarning : String := "Devnet setup failed, but continuing with installation"

/-- The critical (non-best-effort) mutation chain of `installCommand`:
packages → tsconfig paths → package.json scripts → template files
(src/commands/install.ts, lines 99–134). -/
def mutateCritical (o : InstallOracle) (fs : SimFS) :
    Except (String × SimFS) SimFS := do
  let fs ← installPackagesStep o fs
  let fs ← updateTsConfigStep o fs
  let fs ← addScriptsStep o fs
  createTx3FilesStep o fs

/-- Status of one install run: completed, or failed mid-mutation and rolled
back (the source then calls `process.exit(1)`), or blocked before mutation by
validation (the source throws `Project validation failed`). -/
inductive RunStatus : Type where
  | success : RunStatus
  | rolledBack : String → RunStatus
  | blocked : String → RunStatus

/-- Result of one install run: final project state, status, logged warnings. -/
structure RunResult where
  fs : SimFS
  status : RunStatus
  warnings : List String

/-- The backup stage of `installCommand` (src/commands/install.ts, lines
85–97): ensure the backup directory, then back up whichever of
`package.json`, `tsconfig.json` exist. -/
def backupPhase (fs0 : SimFS) : SimFS × List BackupEntry :=
  let fs1 := ensureBackupDir fs0
  backupAll fs1 (["package.json", "tsconfig.json"].filter fs1.fileExistsAt)

/-- The post-confirmation body of `installCommand` (the `try`/`catch` of
src/commands/install.ts, lines 80–158, including the optional best-effort
trix and devnet steps of the variant shipped with the sources): optional
best-effort trix install; the backup phase; the critical mutation chain;
optional best-effort devnet setup. On a critical error: restore every backup
entry taken and report failure. -/
def installRun (o : InstallOracle) (installTrix includeDevnet : Bool) (fs0 : SimFS) :
    RunResult :=
  let w1 : List String :=
    if installTrix && !o.trixOk then [trixWarning] else []
  let (fs2, backups) := backupPhase fs0
  match mutateCritical o fs2 with
  | .error (e, fsE) =>
      { fs := rollbackAll backups fsE, status := .rolledBack e, warnings := w1 }
  | .ok fs3 =>
      if includeDevnet then
        match setupDevnetStep o fs3 with
        | .ok fs4 => { fs := fs4, status := .success, warnings := w1 }
        | .error (_, fsE) =>
            { fs := fsE, status := .success, warnings := w1 ++ [devnetWarning] }
      else { fs := fs3, status := .success, warnings := w1 }

/-- Modelled from the spec: `ValidationResult`. -/
structure ValidationResult where
  isValid : Bool
  errors : List String
  warnings : List String

/-- Does the parsed `package.json` list `next` among its dependencies or
devDependencies? -/
def hasNextDependency (pkg : JsonVal) : Bool :=
  match pkg with
  | .obj m =>
      (match jsGet m "dependencies" with
       | some (.obj d) => (jsGet d "next").isSome
       | _ => false)
      || (match jsGet m "devDependencies" with
          | some (.obj d) => (jsGet d "next").isSome
          | _ => false)
  | _ => false

/-- Modelled from the spec: `ProjectValidator.validateNextJsProject` — "errors
if `package.json` is missing or unparsable, or if no Next.js indicator is
found (Next.js listed as a dependency, or presence of `pages/`, `app/`, or a
`next.config.*` file)". The non-fatal warning list and the interactive
confirmation flow around it are not modelled. -/
def validateNextJsProject (fs : SimFS) : ValidationResult :=
  let pkgErrs : List String :=
    match fs.read "package.json" with
    | none => ["package.json not found"]
    | some c =>
        match jsonParse c with
        | none => ["package.json could not be parsed"]
        | some pkg =>
            if hasNextDependency pkg
               || fs.hasDir "pages" || fs.hasDir "app"
               || fs.fileExistsAt "next.config.js" || fs.fileExistsAt "next.config.ts"
               || fs.fileExistsAt "next.config.mjs" then []
            else ["This does not appear to be a Next.js project"]
  { isValid := pkgErrs.isEmpty, errors := pkgErrs, warnings := [] }

/-- Modelled from the spec: `ProjectValidator.validateFreshProject` — "looser —
only requires that the directory exists and is writable"; that external
filesystem property is oracle-supplied. -/
def validateFreshProject (o : InstallOracle) : ValidationResult :=
  if o.freshWritable then { isValid := true, errors := [], warnings := [] }
  else { isValid := false, errors := ["project directory is not writable"], warnings := [] }

/-- `installCommand` of src/commands/install.ts: validate per the `fresh`
flag; any validation error aborts with a thrown `Project validation failed`
before anything is written; otherwise run the backup/mutate/rollback body.
The interactive prompts and the `--dry-run` preview are not modelled (the
claims below quantify over runs that proceed). -/
def installCommandRun (o : InstallOracle) (fresh installTrix includeDevnet : Bool)
    (fs0 : SimFS) : RunResult :=
  let validation := if fresh then validateFreshProject o else validateNextJsProject fs0
  if !validation.isValid then
    { fs := fs0, status := .blocked "Project validation failed", warnings := [] }
  else installRun o installTrix includeDevnet fs0

/-- World state for `initCommand`: a filesystem over absolute paths plus the
process working directory (`initCommand` calls `process.chdir`). -/
structure InitWorld where
  fs : SimFS
  cwd : String

/-- Resolution of a relative path against the current working directory, as
Node's `fs` functions resolve the plain names `initCommand` passes them. -/
def resolvePath (cwd p : String) : String := cwd ++ "/" ++ p

/-- Modelled from the spec: `FileUtils.removeDirectory` — delete the directory
and everything beneath it. -/
def SimFS.removeDirRec (fs : SimFS) (p : String) : SimFS :=
  { files := fs.files.filter (fun kv => ¬(kv.1 = p ∨ (p ++ "/").isPrefixOf kv.1)),
    dirs := fs.dirs.filter (fun d => ¬(d = p ∨ (p ++ "/").isPrefixOf d)) }

/-- How the delegated `installCommand({ force: true, fresh: true })` call ends,
as seen from `initCommand`. Per `installCommandRun` above: a `blocked`
validation failure is a thrown error (it propagates to `initCommand`'s
`catch`), while a `rolledBack` mutation failure ends in `process.exit(1)`
inside `installCommand` itself, so `initCommand`'s `catch` never runs. -/
inductive InstallStageSim : Type where
  | ok : InstallStageSim
  | throwsError : InstallStageSim
  | exitsProcess : InstallStageSim

/-- External outcomes during one `init` run: `mkdirOk` for
`fs.mkdirSync(projectName)`, `scaffoldOk` for the `npx create-next-app` /
`shadcn init` shell-outs, `removeOk` for the cleanup
`FileUtils.removeDirectory`, and the delegated install stage's outcome. -/
structure InitOracle where
  mkdirOk : Bool
  scaffoldOk : Bool
  removeOk : Bool
  install : InstallStageSim

/-- The `catch` block of `initCommand` (src/commands/init.ts, lines 88–102):
`FileUtils.directoryExists(projectName)` and the removal both resolve
`projectName` against the *current* working directory; a cleanup failure is
reported and swallowed; `process.exit(1)` follows either way. -/
def initCleanup (o : InitOracle) (name : String) (w : InitWorld) :
    InitWorld × Nat × List String :=
  let p := resolvePath w.cwd name
  if w.fs.hasDir p then
    if o.removeOk then ({ w with fs := w.fs.removeDirRec p }, 1, ["Cleaning up " ++ name])
    else (w, 1, ["Failed to cleanup"])
  else (w, 1, [])

/-- `initCommand` of src/commands/init.ts (the non-interactive core; the name
prompt, dry-run preview and confirmation prompt are not modelled): fail up
front if the target directory already exists; otherwise create it, run the
scaffolding shell-outs, `process.chdir` into it, and delegate to
`installCommand`; on a thrown error, run the cleanup `catch`. Returns the
final world, the exit code, and the reported messages. -/
def initRun (o : InitOracle) (name : String) (w0 : InitWorld) :
    InitWorld × Nat × List String :=
  let target := resolvePath w0.cwd name
  if w0.fs.hasDir target then (w0, 1, ["Directory '" ++ name ++ "' already exists"])
  else if ¬o.mkdirOk then
    initCleanup o name w0
  else
    let w1 : InitWorld := { w0 with fs := w0.fs.mkdir target }
    if ¬o.scaffoldOk then initCleanup o name w1
    else
      let w2 : InitWorld := { w1 with cwd := target }
      match o.install with
      | .ok => (w2, 0, [])
      | .exitsProcess => (w2, 1, [])
      | .throwsError => initCleanup o name w2

/-- Net brace count of one line: opening minus closing braces. -/
def lineDelta (line : String) : Int :=
  (line.data.count '{' : Int) - (line.data.count '}' : Int)

/-- Written from the spec's words ("scan forward counting open/close brace
characters per line until the running count returns to the value it had at
the start of the object"): accumulate each line's net brace count, stopping
at the first line where the running total returns to zero. -/
def zeroSumLine : List String → Nat → Int → Option Nat
  | [], _, _ => none
  | l :: rest, i, acc =>
      let acc' := acc + lineDelta l
      if acc' = 0 then some i else zeroSumLine rest (i + 1) acc'

/-- Written from the spec's words: skip to the first line containing an
opening brace (the start of the object literal), then run the zero-return
scan from that line. -/
def specScanFrom : List String → Nat → Option Nat
  | [], _ => none
  | l :: rest, i =>
      if 0 < l.data.count '{' then zeroSumLine (l :: rest) i 0
      else specScanFrom rest (i + 1)

/-- The spec-side insertion index: the zero-return scan started at the
config-object start line. -/
def specInsertIndex (lines : List String) (start : Nat) : Option Nat :=
  specScanFrom (lines.drop start) start

/-- Written from the claim's words: the `compilerOptions` object the tsconfig
merge works on — the existing object if present, else a fresh empty one
(absent and falsy values are replaced by empty objects). -/
def coFieldOf (m : List (String × JsonVal)) : List (String × JsonVal) :=
  match jsGet m "compilerOptions" with
  | some (.obj co) => co
  | _ => []

/-- Written from the claim's words: the `paths` object of a `compilerOptions`
object, or a fresh empty one. -/
def pathsFieldOf (co : List (String × JsonVal)) : List (String × JsonVal) :=
  match jsGet co "paths" with
  | some (.obj p) => p
  | _ => []

/-- Written from the claim's words: the merged `paths` object — the two TX3
keys set (overwriting), all other keys untouched. -/
def specPathsMerged (m : List (String × JsonVal)) : List (String × JsonVal) :=
  jsSet (jsSet (pathsFieldOf (coFieldOf m)) "@tx3/*" tx3StarPaths) "@tx3" tx3Paths

/-- Written from the claim's words: the merged top-level tsconfig object. -/
def specTsconfigMerge (m : List (String × JsonVal)) : List (String × JsonVal) :=
  jsSet m "compilerOptions" (.obj (jsSet (coFieldOf m) "paths" (.obj (specPathsMerged m))))

/-- Is a field value one the merge completes on: absent, an object, or falsy
(then replaced by a fresh object)? A truthy non-object makes the JavaScript
throw a TypeError mid-merge. -/
def fieldMergeable : Option JsonVal → Bool
  | none => true
  | some (.obj _) => true
  | some v => !jsTruthy v

/-- The parsed tsconfig shapes on which `updateTsConfig`'s merge completes:
a top-level object whose `compilerOptions` — and, when that is an object, its
`paths` — is absent, an object, or falsy. -/
def tsconfigShapeOk : JsonVal → Bool
  | .obj m =>
      (match jsGet m "compilerOptions" with
       | none => true
       | some (.obj co) => fieldMergeable (jsGet co "paths")
       | some v => !jsTruthy v)
  | _ => false

mutual

/-- A size measure dominating the parser fuel a printed value needs. -/
def jsize : JsonVal → Nat
  | .null => 1
  | .bool _ => 1
  | .num _ => 1
  | .str _ => 1
  | .arr xs => 1 + jsizeL xs
  | .obj m => 1 + jsizeM m
termination_by j => sizeOf j

/-- Size measure for array elements. -/
def jsizeL : List JsonVal → Nat
  | [] => 1
  | x :: xs => 1 + jsize x + jsizeL xs
termination_by xs => sizeOf xs

/-- Size measure for object members. -/
def jsizeM : List (String × JsonVal) → Nat
  | [] => 1
  | (_, v) :: fs => 1 + jsize v + jsizeM fs
termination_by fs => sizeOf fs

end

/-- Well-formed JSON values: every object's keys are pairwise distinct.
`JSON.parse` only produces such values (a later duplicate key overwrites the
earlier binding), and the print/parse round-trip below holds for them. -/
inductive WfJson : JsonVal → Prop where
  | null : WfJson .null
  | bool (b : Bool) : WfJson (.bool b)
  | num (n : Int) : WfJson (.num n)
  | str (s : String) : WfJson (.str s)
  | arr (xs : List JsonVal) : (∀ x ∈ xs, WfJson x) → WfJson (.arr xs)
  | obj (m : List (String × JsonVal)) : (∀ kv ∈ m, WfJson kv.2) →
      (m.map Prod.fst).Nodup → WfJson (.obj m)

/-- Does the character after a number literal end it (so the greedy digit scan
and the fraction/exponent check stop there)? -/
def numBoundary : List Char → Bool
  | [] => true
  | c :: _ => !isDigitCh c && !(c = '.') && !(c = 'e') && !(c = 'E')

/-- Oracle for the concrete rollback run below: every external operation
succeeds except the write of `tx3/main.tx3`. -/
def cexOracle : InstallOracle :=
  { pkgInstall := .ok none,
    writeOk := fun p => p != "tx3/main.tx3",
    mkdirOk := fun _ => true,
    trixOk := true,
    devnetCopyOk := true,
    freshWritable := true }

/-- A minimal project: `package.json` and `tsconfig.json` both `{}`. -/
def cexFS : SimFS :=
  { files := [("package.json", "{}"), ("tsconfig.json", "{}")], dirs := [] }

/-- World for the concrete init-failure run below: empty base directory. -/
def cexInitWorld : InitWorld := { fs := { files := [], dirs := ["/w"] }, cwd := "/w" }

/-- Init oracle: directory creation and scaffolding succeed, the delegated
install throws (its validation failure propagates), removal would succeed if
attempted. -/
def cexInitOracle : InitOracle :=
  { mkdirOk := true, scaffoldOk := true, removeOk := true, install := .throwsError }

/-- Oracle for the best-effort run below: critical steps succeed, the trix
install and the devnet copy fail. -/
def bestEffortOracle : InstallOracle :=
  { pkgInstall := .ok none,
    writeOk := fun _ => true,
    mkdirOk := fun _ => true,
    trixOk := false,
    devnetCopyOk := false,
    freshWritable := true }

/-- The state after the critical chain of the best-effort run below. -/
def bestEffortFS3 : SimFS :=
  match mutateCritical bestEffortOracle (backupPhase cexFS).1 with
  | .ok f => f
  | .error p => p.2

/-- A project with `package.json` but no `tsconfig.json`. -/
def noTsconfigFS : SimFS := { files := [("package.json", "{}")], dirs := [] }

/-! ### Theorems -/

theorem mergeWebpackConfig_ne_conflict (cfg : String) :
    mergeWebpackConfig cfg ≠ Except.error conflictMsg := by
  simp only [mergeWebpackConfig]
  split
  · intro h
    exact absurd (Except.error.inj h) (by decide)
  · split
    · intro h
      exact absurd (Except.error.inj h) (by decide)
    · intro h
      exact Except.noConfusion h

theorem conflict_of_includes (cfg : String) (h : strIncludes cfg "webpack:" = true) :
    generateNextConfig (some cfg) = Except.error conflictMsg := by
  have hne : ¬(cfg = "") := by
    intro he; subst he; exact absurd h (by decide)
  simp [generateNextConfig, hne, h]

theorem findClose_true_eq_zeroSum (rem : List String) :
    ∀ (i : Nat) (acc : Int), findClose rem i acc true = zeroSumLine rem i acc := by
  induction rem with
  | nil => intro i acc; rfl
  | cons line rest ih =>
      intro i acc
      simp only [findClose, zeroSumLine, Bool.true_or, if_true, lineDelta]
      by_cases hop : 0 < line.data.count '{'
      · simp only [hop, if_true]
        have he : acc + (line.data.count '{' : Int) - (line.data.count '}' : Int)
            = acc + ((line.data.count '{' : Int) - (line.data.count '}' : Int)) := by ring
        rw [he]
        by_cases hz : acc + ((line.data.count '{' : Int) - (line.data.count '}' : Int)) = 0
        · simp only [hz, if_true]
        · simp only [hz, if_false, ih]
      · simp only [hop, if_false]
        have h0 : (line.data.count '{' : Int) = 0 := by
          have : line.data.count '{' = 0 := by omega
          exact_mod_cast this
        have he : acc - (line.data.count '}' : Int)
            = acc + ((line.data.count '{' : Int) - (line.data.count '}' : Int)) := by
          rw [h0]; ring
        rw [he]
        by_cases hz : acc + ((line.data.count '{' : Int) - (line.data.count '}' : Int)) = 0
        · simp only [hz, if_true]
        · simp only [hz, if_false, ih]

theorem findClose_eq_specScan (rem : List String) :
    ∀ i : Nat, findClose rem i 0 false = specScanFrom rem i := by
  induction rem with
  | nil => intro i; rfl
  | cons line rest ih =>
      intro i
      simp only [findClose, specScanFrom, Bool.false_or]
      by_cases hop : 0 < line.data.count '{'
      · simp only [hop, decide_True, if_true, zeroSumLine, lineDelta]
        have he : (0 : Int) + (line.data.count '{' : Int) - (line.data.count '}' : Int)
            = 0 + ((line.data.count '{' : Int) - (line.data.count '}' : Int)) := by ring
        rw [he]
        by_cases hz : (0 : Int) + ((line.data.count '{' : Int) - (line.data.count '}' : Int)) = 0
        · simp only [hz, if_true]
        · simp only [hz, if_false, findClose_true_eq_zeroSum]
      · simp [hop, ih]

/-- C2: for every existing Next config text that contains a top-level
`webpack:` property key, `mergeWebpackConfig` (`generateNextConfig` with an
existing-config argument) always fails with the ConflictError instructing
manual merge and performs no mutation of the config text (no merged output is
produced). -/
theorem webpack_conflict_refused (cfg : String)
    (h : strIncludes cfg "webpack:" = true) :
    generateNextConfig (some cfg) = Except.error conflictMsg :=
  conflict_of_includes cfg h

theorem webpack_conflict_refused_witness :
    strIncludes "module.exports = \x7b webpack: (c) => c \x7d" "webpack:" = true ∧
    generateNextConfig (some "module.exports = \x7b webpack: (c) => c \x7d")
      = Except.error conflictMsg :=
  ⟨by decide, webpack_conflict_refused _ (by decide)⟩

/-- C9: `generateNextConfig`'s conflict detection is exactly substring
containment — it raises the ConflictError if and only if the existing text
contains the substring `webpack:` anywhere (also inside comments or string
literals), and not otherwise (e.g. not for `webpack :`). -/
theorem webpack_conflict_iff_substring (cfg : String) :
    generateNextConfig (some cfg) = Except.error conflictMsg
      ↔ strIncludes cfg "webpack:" = true := by
  constructor
  · intro h
    by_contra hn
    have hn' : strIncludes cfg "webpack:" = false := by
      cases hb : strIncludes cfg "webpack:"
      · rfl
      · exact absurd hb hn
    by_cases he : cfg = ""
    · subst he
      simp only [generateNextConfig, if_true] at h
      exact Except.noConfusion h
    · simp only [generateNextConfig, he, hn', if_false, Bool.false_eq_true] at h
      exact mergeWebpackConfig_ne_conflict cfg h
  · exact conflict_of_includes cfg

/-- C3: for every non-empty existing config text with no `webpack:` substring,
the merge locates the start of the exported configuration object as the first
line containing the config-variable declaration or the module export, scans
forward counting open and close braces per line until the running count
returns to zero (`specInsertIndex`, written from the spec's words), and
splices the two-space-indented TX3 webpack block in immediately before that
closing-brace line; if the start line or the matching closing brace cannot be
located, it fails with the corresponding ParseError instead of producing
output. -/
theorem webpack_merge_characterization (cfg : String) (hne : ¬(cfg = ""))
    (hnw : strIncludes cfg "webpack:" = false) :
    generateNextConfig (some cfg) =
      (match (cfg.splitOn "\n").findIdx? configStartPred with
       | none => Except.error parseErrMsg
       | some s =>
          match specInsertIndex (cfg.splitOn "\n") s with
          | none => Except.error insertErrMsg
          | some i => Except.ok (String.intercalate "\n"
              ((cfg.splitOn "\n").take i
                ++ (nextConfigWebpackTemplate.splitOn "\n").map (fun l => "  " ++ l)
                ++ (cfg.splitOn "\n").drop i))) := by
  simp only [generateNextConfig, hne, hnw, if_false, Bool.false_eq_true,
    mergeWebpackConfig, specInsertIndex, findClose_eq_specScan]

theorem webpack_merge_characterization_witness :
    ¬("const nextConfig = \x7b\n  reactStrictMode: true,\n\x7d;" = "") ∧
    strIncludes "const nextConfig = \x7b\n  reactStrictMode: true,\n\x7d;" "webpack:" = false ∧
    generateNextConfig (some "const nextConfig = \x7b\n  reactStrictMode: true,\n\x7d;") =
      (match ("const nextConfig = \x7b\n  reactStrictMode: true,\n\x7d;".splitOn "\n").findIdx? configStartPred with
       | none => Except.error parseErrMsg
       | some s =>
          match specInsertIndex ("const nextConfig = \x7b\n  reactStrictMode: true,\n\x7d;".splitOn "\n") s with
          | none => Except.error insertErrMsg
          | some i => Except.ok (String.intercalate "\n"
              (("const nextConfig = \x7b\n  reactStrictMode: true,\n\x7d;".splitOn "\n").take i
                ++ (nextConfigWebpackTemplate.splitOn "\n").map (fun l => "  " ++ l)
                ++ ("const nextConfig = \x7b\n  reactStrictMode: true,\n\x7d;".splitOn "\n").drop i))) :=
  ⟨by decide, by decide, webpack_merge_characterization _ (by decide) (by decide)⟩

theorem jsGet_jsSet_self (m : List (String × JsonVal)) (k : String) (v : JsonVal) :
    jsGet (jsSet m k v) k = some v := by
  induction m with
  | nil => simp [jsSet, jsGet]
  | cons kv rest ih =>
      obtain ⟨k', v'⟩ := kv
      by_cases h : k' = k
      · subst h; simp [jsSet, jsGet]
      · simp [jsSet, jsGet, h, ih]

theorem jsGet_jsSet_ne (m : List (String × JsonVal)) (k k' : String) (v : JsonVal)
    (h : ¬(k' = k)) : jsGet (jsSet m k v) k' = jsGet m k' := by
  have h' : ¬(k = k') := fun he => h (he ▸ rfl)
  induction m with
  | nil => simp [jsSet, jsGet, h']
  | cons kv rest ih =>
      obtain ⟨k₀, v₀⟩ := kv
      by_cases h0 : k₀ = k
      · subst h0
        have : ¬(k₀ = k') := fun he => h (he ▸ rfl)
        simp [jsSet, jsGet, this]
      · by_cases h1 : k₀ = k'
        · subst h1; simp [jsSet, jsGet, h0]
        · simp [jsSet, jsGet, h0, h1, ih]

theorem jsSet_jsSet_same (m : List (String × JsonVal)) (k : String) (v w : JsonVal) :
    jsSet (jsSet m k v) k w = jsSet m k w := by
  induction m with
  | nil => simp [jsSet]
  | cons kv rest ih =>
      obtain ⟨k', v'⟩ := kv
      by_cases h : k' = k
      · subst h; simp [jsSet]
      · simp [jsSet, h, ih]

theorem jsSet_eq_of_get (m : List (String × JsonVal)) (k : String) (v : JsonVal)
    (h : jsGet m k = some v) : jsSet m k v = m := by
  induction m with
  | nil => simp [jsGet] at h
  | cons kv rest ih =>
      obtain ⟨k', v'⟩ := kv
      by_cases h0 : k' = k
      · subst h0
        simp [jsGet] at h
        simp [jsSet, h]
      · simp [jsGet, h0] at h
        simp [jsSet, h0, ih h]

theorem mergeTsconfig_of_shapeOk (m : List (String × JsonVal))
    (h : tsconfigShapeOk (.obj m) = true) :
    mergeTsconfig (.obj m) = .ok (.obj (specTsconfigMerge m)) := by
  unfold mergeTsconfig
  cases hco : jsGet m "compilerOptions" with
  | none =>
      simp [Bind.bind, Except.bind, pure, Except.pure, jsGetProp, jsSetProp, jsGetPropU, jsSetPropU,
        jsTruthyU, jsTruthy, hco, jsGet_jsSet_self, jsSet_jsSet_same, jsGet, jsSet,
        specTsconfigMerge, coFieldOf, pathsFieldOf, specPathsMerged]
  | some co =>
      cases co with
      | obj co' =>
          cases hp : jsGet co' "paths" with
          | none =>
              simp [Bind.bind, Except.bind, pure, Except.pure, jsGetProp, jsSetProp, jsGetPropU, jsSetPropU,
                jsTruthyU, jsTruthy, hco, hp, jsGet_jsSet_self, jsSet_jsSet_same, jsGet, jsSet,
                specTsconfigMerge, coFieldOf, pathsFieldOf, specPathsMerged]
          | some pv =>
              have h' := h
              simp only [tsconfigShapeOk, hco, fieldMergeable, hp] at h'
              cases pv with
              | obj p =>
                  simp [Bind.bind, Except.bind, pure, Except.pure, jsGetProp, jsSetProp, jsGetPropU, jsSetPropU,
                    jsTruthyU, jsTruthy, hco, hp, jsGet_jsSet_self, jsSet_jsSet_same,
                    jsGet, jsSet, specTsconfigMerge, coFieldOf, pathsFieldOf, specPathsMerged]
              | null =>
                  simp [Bind.bind, Except.bind, pure, Except.pure, jsGetProp, jsSetProp, jsGetPropU, jsSetPropU,
                    jsTruthyU, jsTruthy, hco, hp, jsGet_jsSet_self, jsSet_jsSet_same,
                    jsGet, jsSet, specTsconfigMerge, coFieldOf, pathsFieldOf, specPathsMerged]
              | bool b =>
                  have hb : b = false := by
                    cases b
                    · rfl
                    · simp [jsTruthy] at h'
                  subst hb
                  simp [Bind.bind, Except.bind, pure, Except.pure, jsGetProp, jsSetProp, jsGetPropU, jsSetPropU,
                    jsTruthyU, jsTruthy, hco, hp, jsGet_jsSet_self, jsSet_jsSet_same,
                    jsGet, jsSet, specTsconfigMerge, coFieldOf, pathsFieldOf, specPathsMerged]
              | num n =>
                  have hn : n = 0 := by
                    by_contra hn
                    simp [jsTruthy, hn] at h'
                  subst hn
                  simp [Bind.bind, Except.bind, pure, Except.pure, jsGetProp, jsSetProp, jsGetPropU, jsSetPropU,
                    jsTruthyU, jsTruthy, hco, hp, jsGet_jsSet_self, jsSet_jsSet_same,
                    jsGet, jsSet, specTsconfigMerge, coFieldOf, pathsFieldOf, specPathsMerged]
              | str s =>
                  have hs : s = "" := by
                    by_contra hs
                    simp [jsTruthy, hs] at h'
                  subst hs
                  simp [Bind.bind, Except.bind, pure, Except.pure, jsGetProp, jsSetProp, jsGetPropU, jsSetPropU,
                    jsTruthyU, jsTruthy, hco, hp, jsGet_jsSet_self, jsSet_jsSet_same,
                    jsGet, jsSet, specTsconfigMerge, coFieldOf, pathsFieldOf, specPathsMerged]
              | arr xs =>
                  simp [jsTruthy] at h'
      | null =>
          simp [Bind.bind, Except.bind, pure, Except.pure, jsGetProp, jsSetProp, jsGetPropU, jsSetPropU,
            jsTruthyU, jsTruthy, hco, jsGet_jsSet_self, jsSet_jsSet_same, jsGet, jsSet,
            specTsconfigMerge, coFieldOf, pathsFieldOf, specPathsMerged]
      | bool b =>
          have h' := h
          simp only [tsconfigShapeOk, hco] at h'
          have hb : b = false := by
            cases b
            · rfl
            · simp [jsTruthy] at h'
          subst hb
          simp [Bind.bind, Except.bind, pure, Except.pure, jsGetProp, jsSetProp, jsGetPropU, jsSetPropU,
            jsTruthyU, jsTruthy, hco, jsGet_jsSet_self, jsSet_jsSet_same, jsGet, jsSet,
            specTsconfigMerge, coFieldOf, pathsFieldOf, specPathsMerged]
      | num n =>
          have h' := h
          simp only [tsconfigShapeOk, hco] at h'
          have hn : n = 0 := by
            by_contra hn
            simp [jsTruthy, hn] at h'
          subst hn
          simp [Bind.bind, Except.bind, pure, Except.pure, jsGetProp, jsSetProp, jsGetPropU, jsSetPropU,
            jsTruthyU, jsTruthy, hco, jsGet_jsSet_self, jsSet_jsSet_same, jsGet, jsSet,
            specTsconfigMerge, coFieldOf, pathsFieldOf, specPathsMerged]
      | str s =>
          have h' := h
          simp only [tsconfigShapeOk, hco] at h'
          have hs : s = "" := by
            by_contra hs
            simp [jsTruthy, hs] at h'
          subst hs
          simp [Bind.bind, Except.bind, pure, Except.pure, jsGetProp, jsSetProp, jsGetPropU, jsSetPropU,
            jsTruthyU, jsTruthy, hco, jsGet_jsSet_self, jsSet_jsSet_same, jsGet, jsSet,
            specTsconfigMerge, coFieldOf, pathsFieldOf, specPathsMerged]
      | arr xs =>
          have h' := h
          simp only [tsconfigShapeOk, hco] at h'
          simp [jsTruthy] at h'

theorem mergeTsconfig_ok_shape (j j' : JsonVal) (h : mergeTsconfig j = .ok j') :
    tsconfigShapeOk j = true := by
  by_contra hn
  have hn' : tsconfigShapeOk j = false := by
    cases hb : tsconfigShapeOk j
    · rfl
    · exact absurd hb hn
  cases j with
  | null => simp [mergeTsconfig, Bind.bind, Except.bind, jsGetProp] at h
  | bool b =>
      simp [mergeTsconfig, Bind.bind, Except.bind, pure, Except.pure, jsGetProp, jsSetProp,
        jsGetPropU, jsSetPropU, jsTruthyU, jsTruthy] at h
  | num n =>
      simp [mergeTsconfig, Bind.bind, Except.bind, pure, Except.pure, jsGetProp, jsSetProp,
        jsGetPropU, jsSetPropU, jsTruthyU, jsTruthy] at h
  | str s =>
      simp [mergeTsconfig, Bind.bind, Except.bind, pure, Except.pure, jsGetProp, jsSetProp,
        jsGetPropU, jsSetPropU, jsTruthyU, jsTruthy] at h
  | arr xs =>
      simp [mergeTsconfig, Bind.bind, Except.bind, pure, Except.pure, jsGetProp, jsSetProp,
        jsGetPropU, jsSetPropU, jsTruthyU, jsTruthy] at h
  | obj m =>
      cases hco : jsGet m "compilerOptions" with
      | none => simp [tsconfigShapeOk, hco] at hn'
      | some co =>
          cases co with
          | null => simp [tsconfigShapeOk, hco, jsTruthy] at hn'
          | bool b =>
              cases b
              · simp [tsconfigShapeOk, hco, jsTruthy] at hn'
              · simp [mergeTsconfig, Bind.bind, Except.bind, pure, Except.pure, jsGetProp,
                  jsSetProp, jsGetPropU, jsSetPropU, jsTruthyU, jsTruthy, hco] at h
          | num n =>
              by_cases hz : n = 0
              · subst hz; simp [tsconfigShapeOk, hco, jsTruthy] at hn'
              · simp [mergeTsconfig, Bind.bind, Except.bind, pure, Except.pure, jsGetProp,
                  jsSetProp, jsGetPropU, jsSetPropU, jsTruthyU, jsTruthy, hco, hz] at h
          | str s =>
              by_cases hz : s = ""
              · subst hz; simp [tsconfigShapeOk, hco, jsTruthy] at hn'
              · simp [mergeTsconfig, Bind.bind, Except.bind, pure, Except.pure, jsGetProp,
                  jsSetProp, jsGetPropU, jsSetPropU, jsTruthyU, jsTruthy, hco, hz] at h
          | arr xs =>
              simp [mergeTsconfig, Bind.bind, Except.bind, pure, Except.pure, jsGetProp,
                jsSetProp, jsGetPropU, jsSetPropU, jsTruthyU, jsTruthy, hco] at h
          | obj co' =>
              cases hp : jsGet co' "paths" with
              | none => simp [tsconfigShapeOk, hco, hp, fieldMergeable] at hn'
              | some pv =>
                  cases pv with
                  | null => simp [tsconfigShapeOk, hco, hp, fieldMergeable, jsTruthy] at hn'
                  | obj p => simp [tsconfigShapeOk, hco, hp, fieldMergeable] at hn'
                  | bool b =>
                      cases b
                      · simp [tsconfigShapeOk, hco, hp, fieldMergeable, jsTruthy] at hn'
                      · simp [mergeTsconfig, Bind.bind, Except.bind, pure, Except.pure, jsGetProp,
                          jsSetProp, jsGetPropU, jsSetPropU, jsTruthyU, jsTruthy, hco, hp,
                          jsGet_jsSet_self, jsSet_jsSet_same, jsGet, jsSet] at h
                  | num n =>
                      by_cases hz : n = 0
                      · subst hz; simp [tsconfigShapeOk, hco, hp, fieldMergeable, jsTruthy] at hn'
                      · simp [mergeTsconfig, Bind.bind, Except.bind, pure, Except.pure, jsGetProp,
                          jsSetProp, jsGetPropU, jsSetPropU, jsTruthyU, jsTruthy, hco, hp, hz,
                          jsGet_jsSet_self, jsSet_jsSet_same, jsGet, jsSet] at h
                  | str s =>
                      by_cases hz : s = ""
                      · subst hz; simp [tsconfigShapeOk, hco, hp, fieldMergeable, jsTruthy] at hn'
                      · simp [mergeTsconfig, Bind.bind, Except.bind, pure, Except.pure, jsGetProp,
                          jsSetProp, jsGetPropU, jsSetPropU, jsTruthyU, jsTruthy, hco, hp, hz,
                          jsGet_jsSet_self, jsSet_jsSet_same, jsGet, jsSet] at h
                  | arr xs =>
                      simp [mergeTsconfig, Bind.bind, Except.bind, pure, Except.pure, jsGetProp,
                        jsSetProp, jsGetPropU, jsSetPropU, jsTruthyU, jsTruthy, hco, hp,
                        jsGet_jsSet_self, jsSet_jsSet_same, jsGet, jsSet] at h

theorem mergeTsconfig_ok_inv (j j' : JsonVal) (h : mergeTsconfig j = .ok j') :
    ∃ m, j = .obj m ∧ tsconfigShapeOk (.obj m) = true ∧ j' = .obj (specTsconfigMerge m) := by
  have hs := mergeTsconfig_ok_shape j j' h
  cases j with
  | obj m =>
      refine ⟨m, rfl, hs, ?_⟩
      rw [mergeTsconfig_of_shapeOk m hs] at h
      exact (Except.ok.inj h).symm
  | null => simp [tsconfigShapeOk] at hs
  | bool b => simp [tsconfigShapeOk] at hs
  | num n => simp [tsconfigShapeOk] at hs
  | str s => simp [tsconfigShapeOk] at hs
  | arr xs => simp [tsconfigShapeOk] at hs

/-- C4 (amended): for every tsconfig text that is malformed JSON, the merge
fails with the ParseError; and for every parsable text whose top-level value
is an object whose `compilerOptions` (and its `paths`) is absent, an object,
or falsy, the merge creates `compilerOptions` and `compilerOptions.paths`
when absent (or falsy — such values are replaced by fresh empty objects),
sets `paths["@tx3/*"] = ["./tx3/bindings/*"]` and
`paths["@tx3"] = ["./tx3/bindings"]` overwriting exactly those two keys,
leaves all other keys at every level untouched, and re-serializes with
2-space indentation. (The parsable text `null` makes the code throw a
TypeError instead — see the counterexample, which is what refutes the
original claim's universal form. Other non-object shapes — e.g. an array,
to which JavaScript attaches the properties and `JSON.stringify` then drops
them, completing without error — are outside the scope of this theorem and
of the model's array-assignment restriction.) -/
theorem updateTsConfig_merge_characterization (t : String) :
    (jsonParse t = none → updateTsConfigText t = Except.error "Failed to parse tsconfig.json") ∧
    (∀ m, jsonParse t = some (.obj m) → tsconfigShapeOk (.obj m) = true →
      updateTsConfigText t = Except.ok (jsonStringify2 (.obj (specTsconfigMerge m))) ∧
      jsGet (specPathsMerged m) "@tx3/*" = some tx3StarPaths ∧
      jsGet (specPathsMerged m) "@tx3" = some tx3Paths ∧
      (∀ k, ¬(k = "@tx3/*") → ¬(k = "@tx3") →
        jsGet (specPathsMerged m) k = jsGet (pathsFieldOf (coFieldOf m)) k) ∧
      (∀ k, ¬(k = "compilerOptions") → jsGet (specTsconfigMerge m) k = jsGet m k) ∧
      (∀ k, ¬(k = "paths") →
        jsGet (jsSet (coFieldOf m) "paths" (.obj (specPathsMerged m))) k
          = jsGet (coFieldOf m) k)) := by
  constructor
  · intro hp
    simp [updateTsConfigText, hp]
  · intro m hp hs
    refine ⟨?_, ?_, ?_, ?_, ?_, ?_⟩
    · simp [updateTsConfigText, hp, mergeTsconfig_of_shapeOk m hs, Except.map]
    · unfold specPathsMerged
      rw [jsGet_jsSet_ne _ _ _ _ (by decide), jsGet_jsSet_self]
    · unfold specPathsMerged
      rw [jsGet_jsSet_self]
    · intro k h1 h2
      unfold specPathsMerged
      rw [jsGet_jsSet_ne _ _ _ _ h2, jsGet_jsSet_ne _ _ _ _ h1]
    · intro k h1
      unfold specTsconfigMerge
      rw [jsGet_jsSet_ne _ _ _ _ h1]
    · intro k h1
      rw [jsGet_jsSet_ne _ _ _ _ h1]

theorem updateTsConfig_null_counterexample :
    jsonParse "null" = some JsonVal.null ∧
    updateTsConfigText "null" =
      Except.error "TypeError: Cannot read properties of null (reading 'compilerOptions')" :=
  ⟨by rfl, by rfl⟩

theorem updateTsConfig_merge_characterization_witness :
    updateTsConfigText "\x7b\"compilerOptions\":\x7b\"paths\":\x7b\"foo\":[\"./foo\"]\x7d\x7d\x7d"
      = Except.ok (jsonStringify2 (.obj (specTsconfigMerge
          [("compilerOptions", JsonVal.obj
            [("paths", JsonVal.obj [("foo", JsonVal.arr [JsonVal.str "./foo"])])])]))) :=
  ((updateTsConfig_merge_characterization _).2
    [("compilerOptions", JsonVal.obj
      [("paths", JsonVal.obj [("foo", JsonVal.arr [JsonVal.str "./foo"])])])]
    (by rfl) (by rfl)).1

theorem SimFS.read_write_self (fs : SimFS) (p c : String) : (fs.write p c).read p = some c := by
  show listGetS (listSetS fs.files p c) p = some c
  induction fs.files with
  | nil => simp [listSetS, listGetS]
  | cons kv rest ih =>
      obtain ⟨k', v'⟩ := kv
      by_cases h : k' = p
      · subst h; simp [listSetS, listGetS]
      · simp [listSetS, listGetS, h, ih]

theorem SimFS.read_write_ne (fs : SimFS) (p c q : String) (h : ¬(q = p)) :
    (fs.write p c).read q = fs.read q := by
  show listGetS (listSetS fs.files p c) q = listGetS fs.files q
  have h' : ¬(p = q) := fun he => h (he ▸ rfl)
  induction fs.files with
  | nil => simp [listSetS, listGetS, h']
  | cons kv rest ih =>
      obtain ⟨k', v'⟩ := kv
      by_cases h0 : k' = p
      · subst h0
        simp [listSetS, listGetS, h']
      · by_cases h1 : k' = q
        · subst h1; simp [listSetS, listGetS, h0]
        · simp [listSetS, listGetS, h0, h1, ih]

theorem SimFS.read_mkdir (fs : SimFS) (d p : String) : (fs.mkdir d).read p = fs.read p := by
  unfold SimFS.mkdir
  by_cases h : fs.hasDir d
  · simp [h]
  · simp [h, SimFS.read]

theorem SimFS.fileExistsAt_mkdir (fs : SimFS) (d p : String) :
    (fs.mkdir d).fileExistsAt p = fs.fileExistsAt p := by
  unfold SimFS.fileExistsAt
  rw [SimFS.read_mkdir]

theorem installPackagesStep_reads (o : InstallOracle) (fs : SimFS) (q : String)
    (hq : ¬(q = "package.json")) :
    (∀ fs', installPackagesStep o fs = .ok fs' → fs'.read q = fs.read q) ∧
    (∀ e fsE, installPackagesStep o fs = .error (e, fsE) → fsE.read q = fs.read q) := by
  unfold installPackagesStep
  cases o.pkgInstall with
  | error e =>
      constructor
      · intro fs' h; exact Except.noConfusion h
      · intro e' fsE h
        obtain ⟨-, h2⟩ := Prod.mk.inj (Except.error.inj h)
        rw [← h2]
  | ok w =>
      cases w with
      | none =>
          constructor
          · intro fs' h; rw [← Except.ok.inj h]
          · intro e' fsE h; exact Except.noConfusion h
      | some c =>
          constructor
          · intro fs' h
            rw [← Except.ok.inj h]
            exact SimFS.read_write_ne fs _ _ _ hq
          · intro e' fsE h; exact Except.noConfusion h

theorem writeFileStep_reads (o : InstallOracle) (fs : SimFS) (p c q : String)
    (hq : ¬(q = p)) :
    (∀ fs', writeFileStep o fs p c = .ok fs' → fs'.read q = fs.read q) ∧
    (∀ e fsE, writeFileStep o fs p c = .error (e, fsE) → fsE.read q = fs.read q) := by
  unfold writeFileStep
  by_cases hw : o.writeOk p
  · simp only [hw, if_true]
    constructor
    · intro fs' h
      rw [← Except.ok.inj h]
      exact SimFS.read_write_ne fs _ _ _ hq
    · intro e' fsE h; exact Except.noConfusion h
  · simp only [hw, if_false, Bool.false_eq_true]
    constructor
    · intro fs' h; exact Except.noConfusion h
    · intro e' fsE h
      obtain ⟨-, h2⟩ := Prod.mk.inj (Except.error.inj h)
      rw [← h2]

theorem updateTsConfigStep_reads (o : InstallOracle) (fs : SimFS) (q : String)
    (hq : ¬(q = "tsconfig.json")) :
    (∀ fs', updateTsConfigStep o fs = .ok fs' → fs'.read q = fs.read q) ∧
    (∀ e fsE, updateTsConfigStep o fs = .error (e, fsE) → fsE.read q = fs.read q) := by
  constructor
  · intro fs' h
    unfold updateTsConfigStep at h
    split at h
    · exact Except.noConfusion h
    · split at h
      · exact Except.noConfusion h
      · exact (writeFileStep_reads o fs _ _ q hq).1 fs' h
  · intro e' fsE h
    unfold updateTsConfigStep at h
    split at h
    · obtain ⟨-, h2⟩ := Prod.mk.inj (Except.error.inj h)
      rw [← h2]
    · split at h
      · obtain ⟨-, h2⟩ := Prod.mk.inj (Except.error.inj h)
        rw [← h2]
      · exact (writeFileStep_reads o fs _ _ q hq).2 e' fsE h

theorem addScriptsStep_reads (o : InstallOracle) (fs : SimFS) (q : String)
    (hq : ¬(q = "package.json")) :
    (∀ fs', addScriptsStep o fs = .ok fs' → fs'.read q = fs.read q) ∧
    (∀ e fsE, addScriptsStep o fs = .error (e, fsE) → fsE.read q = fs.read q) := by
  constructor
  · intro fs' h
    unfold addScriptsStep at h
    split at h
    · exact Except.noConfusion h
    · split at h
      · exact Except.noConfusion h
      · split at h
        · exact Except.noConfusion h
        · exact (writeFileStep_reads o fs _ _ q hq).1 fs' h
  · intro e' fsE h
    unfold addScriptsStep at h
    split at h
    · obtain ⟨-, h2⟩ := Prod.mk.inj (Except.error.inj h)
      rw [← h2]
    · split at h
      · obtain ⟨-, h2⟩ := Prod.mk.inj (Except.error.inj h)
        rw [← h2]
      · split at h
        · obtain ⟨-, h2⟩ := Prod.mk.inj (Except.error.inj h)
          rw [← h2]
        · exact (writeFileStep_reads o fs _ _ q hq).2 e' fsE h

theorem mkdirStep_reads (o : InstallOracle) (fs : SimFS) (p q : String) :
    (∀ fs', mkdirStep o fs p = .ok fs' → fs'.read q = fs.read q) ∧
    (∀ e fsE, mkdirStep o fs p = .error (e, fsE) → fsE.read q = fs.read q) := by
  unfold mkdirStep
  by_cases hm : o.mkdirOk p
  · simp only [hm, if_true]
    constructor
    · intro fs' h
      rw [← Except.ok.inj h]
      exact SimFS.read_mkdir fs p q
    · intro e' fsE h; exact Except.noConfusion h
  · simp only [hm, if_false, Bool.false_eq_true]
    constructor
    · intro fs' h; exact Except.noConfusion h
    · intro e' fsE h
      obtain ⟨-, h2⟩ := Prod.mk.inj (Except.error.inj h)
      rw [← h2]

theorem read_pres_bind (a : Except (String × SimFS) SimFS)
    (g : SimFS → Except (String × SimFS) SimFS) (fs0 : SimFS) (q : String)
    (ha : (∀ fs', a = .ok fs' → fs'.read q = fs0.read q) ∧
      (∀ e fsE, a = .error (e, fsE) → fsE.read q = fs0.read q))
    (hg : ∀ fs1, (∀ fs', g fs1 = .ok fs' → fs'.read q = fs1.read q) ∧
      (∀ e fsE, g fs1 = .error (e, fsE) → fsE.read q = fs1.read q)) :
    (∀ fs', Bind.bind a g = .ok fs' → fs'.read q = fs0.read q) ∧
    (∀ e fsE, Bind.bind a g = .error (e, fsE) → fsE.read q = fs0.read q) := by
  cases a with
  | error p =>
      obtain ⟨e0, fsE0⟩ := p
      constructor
      · intro fs' h; exact Except.noConfusion h
      · intro e fsE h
        have h' : (Except.error (e0, fsE0) : Except (String × SimFS) SimFS)
            = .error (e, fsE) := h
        obtain ⟨h1, h2⟩ := Prod.mk.inj (Except.error.inj h')
        rw [← h2]
        exact ha.2 e0 fsE0 rfl
  | ok fs1 =>
      have hstep : fs1.read q = fs0.read q := ha.1 fs1 rfl
      constructor
      · intro fs' h
        have h' : g fs1 = .ok fs' := h
        rw [(hg fs1).1 fs' h', hstep]
      · intro e fsE h
        have h' : g fs1 = .error (e, fsE) := h
        rw [(hg fs1).2 e fsE h', hstep]

theorem createTx3FilesStep_reads (o : InstallOracle) (fs : SimFS) (q : String)
    (h3 : ¬(q = "tx3/trix.toml")) (h4 : ¬(q = "tx3/main.tx3"))
    (h5 : ¬(q = "scripts/generate-tx3.mjs")) :
    (∀ fs', createTx3FilesStep o fs = .ok fs' → fs'.read q = fs.read q) ∧
    (∀ e fsE, createTx3FilesStep o fs = .error (e, fsE) → fsE.read q = fs.read q) := by
  unfold createTx3FilesStep
  refine read_pres_bind _ _ _ _ (mkdirStep_reads o fs "tx3" q) (fun fs1 => ?_)
  refine read_pres_bind _ _ _ _ (mkdirStep_reads o fs1 "scripts" q) (fun fs2 => ?_)
  refine read_pres_bind _ _ _ _ (writeFileStep_reads o fs2 _ _ q h3) (fun fs3 => ?_)
  refine read_pres_bind _ _ _ _ (writeFileStep_reads o fs3 _ _ q h4) (fun fs4 => ?_)
  exact writeFileStep_reads o fs4 _ _ q h5

theorem mutateCritical_reads (o : InstallOracle) (fs : SimFS) (q : String)
    (hq1 : ¬(q = "package.json")) (hq2 : ¬(q = "tsconfig.json"))
    (hq3 : ¬(q = "tx3/trix.toml")) (hq4 : ¬(q = "tx3/main.tx3"))
    (hq5 : ¬(q = "scripts/generate-tx3.mjs")) :
    (∀ fs', mutateCritical o fs = .ok fs' → fs'.read q = fs.read q) ∧
    (∀ e fsE, mutateCritical o fs = .error (e, fsE) → fsE.read q = fs.read q) := by
  unfold mutateCritical
  refine read_pres_bind _ _ _ _ (installPackagesStep_reads o fs q hq1) (fun fs1 => ?_)
  refine read_pres_bind _ _ _ _ (updateTsConfigStep_reads o fs1 q hq2) (fun fs2 => ?_)
  refine read_pres_bind _ _ _ _ (addScriptsStep_reads o fs2 q hq1) (fun fs3 => ?_)
  exact createTx3FilesStep_reads o fs3 q hq3 hq4 hq5

theorem mutateCritical_err_ts_absent (o : InstallOracle) (fs : SimFS)
    (h : fs.read "tsconfig.json" = none) :
    ∀ e fsE, mutateCritical o fs = .error (e, fsE) → fsE.read "tsconfig.json" = none := by
  intro e fsE hrun
  unfold mutateCritical at hrun
  cases h1 : installPackagesStep o fs with
  | error p =>
      obtain ⟨e0, fsE0⟩ := p
      rw [h1] at hrun
      simp only [Bind.bind, Except.bind] at hrun
      obtain ⟨-, h2⟩ := Prod.mk.inj (Except.error.inj hrun)
      rw [← h2]
      rw [(installPackagesStep_reads o fs "tsconfig.json" (by decide)).2 e0 fsE0 h1]
      exact h
  | ok fs1 =>
      have hts1 : fs1.read "tsconfig.json" = none := by
        rw [(installPackagesStep_reads o fs "tsconfig.json" (by decide)).1 fs1 h1]
        exact h
      rw [h1] at hrun
      simp only [Bind.bind, Except.bind] at hrun
      have hup : updateTsConfigStep o fs1 = .error ("tsconfig.json not found", fs1) := by
        unfold updateTsConfigStep
        rw [hts1]
      rw [hup] at hrun
      simp only [Except.bind] at hrun
      obtain ⟨-, h2⟩ := Prod.mk.inj (Except.error.inj hrun)
      rw [← h2]
      exact hts1

theorem mutateCritical_ts_missing (o : InstallOracle) (fs : SimFS) (w : Option String)
    (hw : o.pkgInstall = .ok w) (h : fs.read "tsconfig.json" = none) :
    ∃ fsE, mutateCritical o fs = .error ("tsconfig.json not found", fsE) ∧
      fsE.read "tsconfig.json" = none := by
  have h1 : ∃ fs1, installPackagesStep o fs = .ok fs1 := by
    unfold installPackagesStep
    rw [hw]
    cases w with
    | none => exact ⟨fs, rfl⟩
    | some c => exact ⟨fs.write "package.json" c, rfl⟩
  obtain ⟨fs1, h1⟩ := h1
  have hts1 : fs1.read "tsconfig.json" = none := by
    rw [(installPackagesStep_reads o fs "tsconfig.json" (by decide)).1 fs1 h1]
    exact h
  refine ⟨fs1, ?_, hts1⟩
  unfold mutateCritical
  rw [h1]
  simp only [Bind.bind, Except.bind]
  have hup : updateTsConfigStep o fs1 = .error ("tsconfig.json not found", fs1) := by
    unfold updateTsConfigStep
    rw [hts1]
  rw [hup]

theorem backupPhase_both (fs0 : SimFS) (pb tb : String)
    (hp : fs0.read "package.json" = some pb) (ht : fs0.read "tsconfig.json" = some tb) :
    backupPhase fs0 =
      (((ensureBackupDir fs0).write (backupDirName ++ "/" ++ "package.json") pb).write
          (backupDirName ++ "/" ++ "tsconfig.json") tb,
       [⟨"package.json", backupDirName ++ "/" ++ "package.json", true⟩,
        ⟨"tsconfig.json", backupDirName ++ "/" ++ "tsconfig.json", true⟩]) := by
  have hp1 : (ensureBackupDir fs0).read "package.json" = some pb := by
    unfold ensureBackupDir
    rw [SimFS.read_mkdir]
    exact hp
  have ht1 : (ensureBackupDir fs0).read "tsconfig.json" = some tb := by
    unfold ensureBackupDir
    rw [SimFS.read_mkdir]
    exact ht
  have ht2 : ((ensureBackupDir fs0).write (backupDirName ++ "/" ++ "package.json") pb).read
      "tsconfig.json" = some tb := by
    rw [SimFS.read_write_ne _ _ _ _ (by decide)]
    exact ht1
  simp only [backupPhase]
  have hfilter : ["package.json", "tsconfig.json"].filter (ensureBackupDir fs0).fileExistsAt
      = ["package.json", "tsconfig.json"] := by
    simp [List.filter, SimFS.fileExistsAt, hp1, ht1]
  rw [hfilter]
  unfold backupAll backupFile
  rw [hp1]
  simp only [backupAll, backupFile, ht2]

theorem backupPhase_pkg_only (fs0 : SimFS) (pb : String)
    (hp : fs0.read "package.json" = some pb) (ht : fs0.read "tsconfig.json" = none) :
    backupPhase fs0 =
      ((ensureBackupDir fs0).write (backupDirName ++ "/" ++ "package.json") pb,
       [⟨"package.json", backupDirName ++ "/" ++ "package.json", true⟩]) := by
  have hp1 : (ensureBackupDir fs0).read "package.json" = some pb := by
    unfold ensureBackupDir
    rw [SimFS.read_mkdir]
    exact hp
  have ht1 : (ensureBackupDir fs0).read "tsconfig.json" = none := by
    unfold ensureBackupDir
    rw [SimFS.read_mkdir]
    exact ht
  simp only [backupPhase]
  have hfilter : ["package.json", "tsconfig.json"].filter (ensureBackupDir fs0).fileExistsAt
      = ["package.json"] := by
    simp [List.filter, SimFS.fileExistsAt, hp1, ht1]
  rw [hfilter]
  unfold backupAll backupFile
  rw [hp1]
  simp only [backupAll]

/-- C1 (amended): for every install run in which the critical mutation chain
raises an error after backups were taken, the rollback restores every
BackupEntry taken so far, leaving `package.json` and `tsconfig.json`
byte-identical to their pre-run state (`package.json` assumed present, as
validation guarantees; `tsconfig.json` covered whether present or absent) —
but files created by earlier mutating steps in the same run (e.g.
`tx3/trix.toml`) are NOT removed: only `package.json` and `tsconfig.json`
ever receive backup entries, and the rollback loop only restores entries.
See the counterexample for the removal clause of the original claim. -/
theorem install_rollback_restores (o : InstallOracle) (it dn : Bool) (fs0 : SimFS)
    (pb : String) (hp : fs0.read "package.json" = some pb)
    (e : String) (hst : (installRun o it dn fs0).status = RunStatus.rolledBack e) :
    (installRun o it dn fs0).fs.read "package.json" = some pb ∧
    (installRun o it dn fs0).fs.read "tsconfig.json" = fs0.read "tsconfig.json" := by
  cases hts : fs0.read "tsconfig.json" with
  | some tb =>
      have hbp := backupPhase_both fs0 pb tb hp hts
      cases hmc : mutateCritical o (((ensureBackupDir fs0).write
          (backupDirName ++ "/" ++ "package.json") pb).write
          (backupDirName ++ "/" ++ "tsconfig.json") tb) with
      | ok fs3 =>
          exfalso
          simp only [installRun, hbp, hmc] at hst
          cases dn with
          | false => exact RunStatus.noConfusion hst
          | true =>
              cases hsd : setupDevnetStep o fs3 with
              | ok fs4 =>
                  rw [hsd] at hst
                  exact RunStatus.noConfusion hst
              | error p =>
                  rw [hsd] at hst
                  exact RunStatus.noConfusion hst
      | error p =>
          obtain ⟨e0, fsE⟩ := p
          have hb1 : fsE.read (backupDirName ++ "/" ++ "package.json") = some pb := by
            rw [(mutateCritical_reads o _ _ (by decide) (by decide) (by decide) (by decide)
              (by decide)).2 e0 fsE hmc]
            rw [SimFS.read_write_ne _ _ _ _ (by decide), SimFS.read_write_self]
          have hb2 : fsE.read (backupDirName ++ "/" ++ "tsconfig.json") = some tb := by
            rw [(mutateCritical_reads o _ _ (by decide) (by decide) (by decide) (by decide)
              (by decide)).2 e0 fsE hmc]
            rw [SimFS.read_write_self]
          have hroll : rollbackAll
              [⟨"package.json", backupDirName ++ "/" ++ "package.json", true⟩,
               ⟨"tsconfig.json", backupDirName ++ "/" ++ "tsconfig.json", true⟩] fsE
              = (fsE.write "package.json" pb).write "tsconfig.json" tb := by
            unfold rollbackAll
            simp only [List.foldl]
            unfold restoreFromBackup
            simp only [if_true, hb1]
            rw [SimFS.read_write_ne _ _ _ _ (by decide), hb2]
          simp only [installRun, hbp, hmc, hroll]
          constructor
          · rw [SimFS.read_write_ne _ _ _ _ (by decide), SimFS.read_write_self]
          · rw [SimFS.read_write_self]
  | none =>
      have hbp := backupPhase_pkg_only fs0 pb hp hts
      cases hmc : mutateCritical o ((ensureBackupDir fs0).write
          (backupDirName ++ "/" ++ "package.json") pb) with
      | ok fs3 =>
          exfalso
          simp only [installRun, hbp, hmc] at hst
          cases dn with
          | false => exact RunStatus.noConfusion hst
          | true =>
              cases hsd : setupDevnetStep o fs3 with
              | ok fs4 =>
                  rw [hsd] at hst
                  exact RunStatus.noConfusion hst
              | error p =>
                  rw [hsd] at hst
                  exact RunStatus.noConfusion hst
      | error p =>
          obtain ⟨e0, fsE⟩ := p
          have hb1 : fsE.read (backupDirName ++ "/" ++ "package.json") = some pb := by
            rw [(mutateCritical_reads o _ _ (by decide) (by decide) (by decide) (by decide)
              (by decide)).2 e0 fsE hmc]
            rw [SimFS.read_write_self]
          have htsE : fsE.read "tsconfig.json" = none := by
            refine mutateCritical_err_ts_absent o _ ?_ e0 fsE hmc
            rw [SimFS.read_write_ne _ _ _ _ (by decide)]
            unfold ensureBackupDir
            rw [SimFS.read_mkdir]
            exact hts
          have hroll : rollbackAll
              [⟨"package.json", backupDirName ++ "/" ++ "package.json", true⟩] fsE
              = fsE.write "package.json" pb := by
            unfold rollbackAll
            simp only [List.foldl]
            unfold restoreFromBackup
            simp only [if_true, hb1]
          simp only [installRun, hbp, hmc, hroll]
          constructor
          · rw [SimFS.read_write_self]
          · rw [SimFS.read_write_ne _ _ _ _ (by decide), htsE]

theorem backupPhase_none (fs0 : SimFS)
    (hp : fs0.read "package.json" = none) (ht : fs0.read "tsconfig.json" = none) :
    backupPhase fs0 = (ensureBackupDir fs0, []) := by
  have hp1 : (ensureBackupDir fs0).read "package.json" = none := by
    unfold ensureBackupDir
    rw [SimFS.read_mkdir]
    exact hp
  have ht1 : (ensureBackupDir fs0).read "tsconfig.json" = none := by
    unfold ensureBackupDir
    rw [SimFS.read_mkdir]
    exact ht
  simp only [backupPhase]
  have hfilter : ["package.json", "tsconfig.json"].filter (ensureBackupDir fs0).fileExistsAt
      = [] := by
    simp [List.filter, SimFS.fileExistsAt, hp1, ht1]
  rw [hfilter]
  rfl

/-- C1 counterexample: a concrete run in which `createTx3Files` fails after
`tx3/trix.toml` was written. The run rolls back and fails, but the created
file `tx3/trix.toml` — absent before the run — is still present afterwards:
the rollback does not remove files created by earlier mutating steps. -/
theorem install_rollback_leaves_created_files :
    (installRun cexOracle false false cexFS).status
        = RunStatus.rolledBack "Failed to write tx3/main.tx3" ∧
    cexFS.read "tx3/trix.toml" = none ∧
    (installRun cexOracle false false cexFS).fs.read "tx3/trix.toml"
        = some trixTomlTemplate := by
  refine ⟨by rfl, by rfl, by rfl⟩

theorem install_rollback_restores_witness :
    (installRun cexOracle false false cexFS).fs.read "package.json" = some "{}" ∧
    (installRun cexOracle false false cexFS).fs.read "tsconfig.json"
        = cexFS.read "tsconfig.json" :=
  install_rollback_restores cexOracle false false cexFS "{}" (by rfl)
    "Failed to write tx3/main.tx3" (by rfl)

/-- C6: for every install run whose critical mutation chain succeeds, failure
of the best-effort trix/tx3up installation and of the devnet bundle copy is
caught and logged as a warning, does not trigger rollback of any backups (the
final state is exactly the critical chain's output, untouched by the rollback
loop), and the run still completes with success status. -/
theorem bestEffort_failures_keep_success (o : InstallOracle) (fs0 fs3 : SimFS)
    (ht : o.trixOk = false) (hd : o.devnetCopyOk = false)
    (h : mutateCritical o (backupPhase fs0).1 = .ok fs3) :
    installRun o true true fs0 = ⟨fs3, .success, [trixWarning, devnetWarning]⟩ := by
  have hsd : setupDevnetStep o fs3
      = .error ("Failed to setup devnet: devnet copy failed", fs3) := by
    unfold setupDevnetStep
    simp [hd, Bind.bind, Except.bind]
  cases hbp : backupPhase fs0 with
  | mk fs2 backups =>
      rw [hbp] at h
      simp only [installRun, hbp, ht, h, hsd]
      rfl

theorem bestEffort_failures_keep_success_witness :
    installRun bestEffortOracle true true cexFS
      = ⟨bestEffortFS3, .success, [trixWarning, devnetWarning]⟩ :=
  bestEffort_failures_keep_success bestEffortOracle cexFS bestEffortFS3 rfl rfl (by rfl)

/-- C7: for every run in which `validateNextJsProject` reports any error (its
`isValid` is false — e.g. the directory lacks `package.json`), the install
pipeline aborts by throwing `Project validation failed` before performing any
mutation: the resulting state is exactly the initial one (in particular the
backup directory is never created), the status is the thrown error, and no
filesystem write precedes successful validation. -/
theorem validation_failure_blocks_run (o : InstallOracle) (it dn : Bool) (fs0 : SimFS)
    (h : (validateNextJsProject fs0).isValid = false) :
    installCommandRun o false it dn fs0
      = ⟨fs0, .blocked "Project validation failed", []⟩ := by
  simp [installCommandRun, h]

theorem validation_failure_blocks_run_witness :
    installCommandRun cexOracle false false false ⟨[], []⟩
      = ⟨⟨[], []⟩, .blocked "Project validation failed", []⟩ :=
  validation_failure_blocks_run cexOracle false false ⟨[], []⟩ (by rfl)

/-- C10: if `tsconfig.json` does not exist at the project root, the
tsconfig-merge step fails with `tsconfig.json not found` rather than creating
the file; the failure occurs during mutation (after the package-installation
step, here assumed to return) and so triggers the rollback path, even though
no backup entry exists for `tsconfig.json` — only files that existed at
backup time get entries. -/
theorem tsconfig_missing_triggers_rollback (o : InstallOracle) (it dn : Bool)
    (fs0 : SimFS) (w : Option String) (hw : o.pkgInstall = .ok w)
    (hts : fs0.read "tsconfig.json" = none) :
    (installRun o it dn fs0).status = RunStatus.rolledBack "tsconfig.json not found" ∧
    (installRun o it dn fs0).fs.read "tsconfig.json" = none ∧
    ∀ b ∈ (backupPhase fs0).2, ¬(b.originalPath = "tsconfig.json") := by
  cases hp : fs0.read "package.json" with
  | some pb =>
      have hbp := backupPhase_pkg_only fs0 pb hp hts
      have hts2 : ((ensureBackupDir fs0).write
          (backupDirName ++ "/" ++ "package.json") pb).read "tsconfig.json" = none := by
        rw [SimFS.read_write_ne _ _ _ _ (by decide)]
        unfold ensureBackupDir
        rw [SimFS.read_mkdir]
        exact hts
      obtain ⟨fsE, hmc, htsE⟩ := mutateCritical_ts_missing o _ w hw hts2
      refine ⟨?_, ?_, ?_⟩
      · simp only [installRun, hbp, hmc]
      · simp only [installRun, hbp, hmc]
        unfold rollbackAll
        simp only [List.foldl]
        unfold restoreFromBackup
        simp only [if_true]
        cases hbk : fsE.read (backupDirName ++ "/" ++ "package.json") with
        | none => exact htsE
        | some c =>
            rw [SimFS.read_write_ne _ _ _ _ (by decide)]
            exact htsE
      · rw [hbp]
        intro b hb
        simp only [List.mem_singleton] at hb
        subst hb
        decide
  | none =>
      have hbp := backupPhase_none fs0 hp hts
      have hts2 : (ensureBackupDir fs0).read "tsconfig.json" = none := by
        unfold ensureBackupDir
        rw [SimFS.read_mkdir]
        exact hts
      obtain ⟨fsE, hmc, htsE⟩ := mutateCritical_ts_missing o _ w hw hts2
      refine ⟨?_, ?_, ?_⟩
      · simp only [installRun, hbp, hmc]
      · simp only [installRun, hbp, hmc]
        exact htsE
      · rw [hbp]
        intro b hb
        simp at hb

theorem tsconfig_missing_triggers_rollback_witness :
    (installRun cexOracle false false noTsconfigFS).status
      = RunStatus.rolledBack "tsconfig.json not found" :=
  (tsconfig_missing_triggers_rollback cexOracle false false noTsconfigFS none rfl rfl).1

theorem SimFS.hasDir_mkdir_self (fs : SimFS) (p : String) : (fs.mkdir p).hasDir p = true := by
  unfold SimFS.mkdir
  by_cases h : fs.hasDir p
  · simp [h]
  · simp only [h, if_false, Bool.false_eq_true]
    show (fs.dirs ++ [p]).contains p = true
    exact List.elem_iff.mpr (by simp)

theorem SimFS.hasDir_removeDirRec_self (fs : SimFS) (p : String) :
    (fs.removeDirRec p).hasDir p = false := by
  simp only [SimFS.removeDirRec, SimFS.hasDir]
  rw [Bool.eq_false_iff]
  intro hc
  have hmem := List.elem_iff.mp hc
  have := List.of_mem_filter hmem
  simp at this

/-- C5 (amended): `initCommand` fails up front if the target directory already
exists; for a failure during the scaffolding stage (before the working
directory changes into the new project), the cleanup deletes the created
directory and exits non-zero, and a cleanup failure is reported
(`Failed to cleanup`) without changing the non-zero exit. Failures arising in
the delegated install stage do NOT delete the directory: a mutation failure
exits the process inside `installCommand` without reaching `initCommand`'s
catch, and a thrown validation error reaches the catch only after
`process.chdir`, whose changed working directory makes the cwd-relative
existence check miss the directory — see the counterexample. -/
theorem init_cleanup_characterization (o : InitOracle) (name : String) (w0 : InitWorld) :
    (w0.fs.hasDir (resolvePath w0.cwd name) = true →
      initRun o name w0 = (w0, 1, ["Directory '" ++ name ++ "' already exists"])) ∧
    (w0.fs.hasDir (resolvePath w0.cwd name) = false → o.mkdirOk = true →
      o.scaffoldOk = false → o.removeOk = true →
      (initRun o name w0).1.fs.hasDir (resolvePath w0.cwd name) = false ∧
      (initRun o name w0).2.1 = 1) ∧
    (w0.fs.hasDir (resolvePath w0.cwd name) = false → o.mkdirOk = true →
      o.scaffoldOk = false → o.removeOk = false →
      (initRun o name w0).2.1 = 1 ∧
      (initRun o name w0).2.2 = ["Failed to cleanup"]) := by
  refine ⟨?_, ?_, ?_⟩
  · intro h
    simp [initRun, h]
  · intro h0 hm hs hr
    have hrun : initRun o name w0 = initCleanup o name { w0 with fs := w0.fs.mkdir (resolvePath w0.cwd name) } := by
      simp [initRun, h0, hm, hs]
    have hclean : initCleanup o name { w0 with fs := w0.fs.mkdir (resolvePath w0.cwd name) }
        = (InitWorld.mk ((w0.fs.mkdir (resolvePath w0.cwd name)).removeDirRec (resolvePath w0.cwd name)) w0.cwd, 1, ["Cleaning up " ++ name]) := by
      simp [initCleanup, SimFS.hasDir_mkdir_self, hr]
    rw [hrun, hclean]
    exact ⟨SimFS.hasDir_removeDirRec_self _ _, rfl⟩
  · intro h0 hm hs hr
    have hrun : initRun o name w0 = initCleanup o name { w0 with fs := w0.fs.mkdir (resolvePath w0.cwd name) } := by
      simp [initRun, h0, hm, hs]
    have hclean : initCleanup o name { w0 with fs := w0.fs.mkdir (resolvePath w0.cwd name) }
        = (InitWorld.mk (w0.fs.mkdir (resolvePath w0.cwd name)) w0.cwd, 1, ["Failed to cleanup"]) := by
      simp [initCleanup, SimFS.hasDir_mkdir_self, hr]
    rw [hrun, hclean]
    exact ⟨rfl, rfl⟩

/-- C5 counterexample: a concrete init run in which scaffolding succeeds, the
working directory changes into the new project, and the delegated install
throws (validation failure): the run exits non-zero but the created target
directory `/w/proj` is still present — the cleanup's cwd-relative existence
check misses it, so nothing is deleted. -/
theorem init_install_failure_leaves_directory :
    (initRun cexInitOracle "proj" cexInitWorld).1.fs.hasDir "/w/proj" = true ∧
    (initRun cexInitOracle "proj" cexInitWorld).2.1 = 1 :=
  ⟨by rfl, by rfl⟩

theorem init_cleanup_characterization_witness :
    (initRun ⟨true, false, true, .ok⟩ "proj" cexInitWorld).1.fs.hasDir
        (resolvePath cexInitWorld.cwd "proj") = false ∧
    (initRun ⟨true, false, true, .ok⟩ "proj" cexInitWorld).2.1 = 1 :=
  (init_cleanup_characterization ⟨true, false, true, .ok⟩ "proj" cexInitWorld).2.1
    (by rfl) rfl rfl rfl

theorem charToNat_ofNat (n : Nat) (h : n < 55296) : (Char.ofNat n).toNat = n := by
  have hv : n.isValidChar := Or.inl h
  simp [Char.ofNat, hv, Char.ofNatAux, Char.toNat, UInt32.toNat, UInt32.ofNatCore]

theorem digitChar_toNat (k : Nat) (h : k < 10) : (digitChar k).toNat = 48 + k := by
  unfold digitChar
  exact charToNat_ofNat (48 + k) (by omega)

theorem isDigitCh_digitChar (k : Nat) (h : k < 10) : isDigitCh (digitChar k) = true := by
  unfold isDigitCh
  rw [digitChar_toNat k h]
  simp
  omega

theorem natDigits_ne_nil (n : Nat) : natDigits n ≠ [] := by
  unfold natDigits
  by_cases h : n < 10
  · simp [h]
  · simp [h]

theorem natDigits_all_digits (n : Nat) : ∀ c ∈ natDigits n, isDigitCh c = true := by
  induction n using Nat.strong_induction_on with
  | _ n ih =>
      intro c hc
      unfold natDigits at hc
      by_cases h : n < 10
      · simp [h] at hc
        subst hc
        exact isDigitCh_digitChar n h
      · simp [h] at hc
        cases hc with
        | inl h1 => exact ih (n / 10) (Nat.div_lt_self (by omega) (by omega)) c h1
        | inr h1 =>
            subst h1
            exact isDigitCh_digitChar (n % 10) (Nat.mod_lt _ (by omega))

theorem natDigits_head_ne_zero (n : Nat) (hn : ¬(n = 0)) :
    ∃ c ds, natDigits n = c :: ds ∧ isDigitCh c = true ∧ ¬(c = '0') := by
  induction n using Nat.strong_induction_on with
  | _ n ih =>
      unfold natDigits
      by_cases h : n < 10
      · refine ⟨digitChar n, [], by simp [h], isDigitCh_digitChar n h, ?_⟩
        intro he
        have h1 : (digitChar n).toNat = 48 := by rw [he]; rfl
        rw [digitChar_toNat n h] at h1
        omega
      · obtain ⟨c, ds, hEq, hd, hne⟩ :=
          ih (n / 10) (Nat.div_lt_self (by omega) (by omega)) (by omega)
        exact ⟨c, ds ++ [digitChar (n % 10)], by simp [h, hEq], hd, hne⟩

theorem foldl_digits_natDigits (n : Nat) : ∀ acc : Nat,
    List.foldl (fun a c => a * 10 + (c.toNat - 48)) acc (natDigits n)
      = acc * 10 ^ (natDigits n).length + n := by
  induction n using Nat.strong_induction_on with
  | _ n ih =>
      intro acc
      unfold natDigits
      by_cases h : n < 10
      · simp [h, List.foldl, digitChar_toNat n h]
      · simp only [h, if_false]
        rw [List.foldl_append]
        rw [ih (n / 10) (Nat.div_lt_self (by omega) (by omega)) acc]
        simp only [List.foldl]
        rw [digitChar_toNat (n % 10) (Nat.mod_lt _ (by omega))]
        rw [List.length_append]
        simp only [List.length_singleton]
        rw [pow_succ]
        have : 48 + n % 10 - 48 = n % 10 := by omega
        rw [this]
        have hmod : n % 10 + n / 10 * 10 = n := Nat.mod_add_div' n 10
        ring_nf
        omega

theorem parseDigits_spec (ds : List Char) : ∀ (rest : List Char) (acc : Nat),
    (∀ c ∈ ds, isDigitCh c = true) →
    (rest = [] ∨ ∃ c t, rest = c :: t ∧ isDigitCh c = false) →
    parseDigits (ds ++ rest) acc
      = (List.foldl (fun a c => a * 10 + (c.toNat - 48)) acc ds, rest) := by
  induction ds with
  | nil =>
      intro rest acc _ hrest
      cases hrest with
      | inl h => subst h; rfl
      | inr h =>
          obtain ⟨c, t, hEq, hc⟩ := h
          subst hEq
          simp only [List.nil_append, List.foldl]
          simp [parseDigits, hc]
  | cons d ds ih =>
      intro rest acc hds hrest
      have hd : isDigitCh d = true := hds d (by simp)
      simp only [List.cons_append, List.foldl]
      simp only [parseDigits, hd, if_true]
      exact ih rest (acc * 10 + (d.toNat - 48)) (fun c hc => hds c (by simp [hc])) hrest

theorem natDigits_zero : natDigits 0 = ['0'] := by
  unfold natDigits
  norm_num
  decide

theorem parseNatNum_natDigits (n : Nat) (rest : List Char) (hb : numBoundary rest = true) :
    parseNatNum (natDigits n ++ rest) = some (n, rest) := by
  by_cases hn : n = 0
  · subst hn
    rw [natDigits_zero]
    cases rest with
    | nil => rfl
    | cons d t =>
        simp only [numBoundary, Bool.and_eq_true, Bool.not_eq_true',
          decide_eq_false_iff_not] at hb
        simp only [List.cons_append, List.nil_append]
        simp only [parseNatNum]
        simp [hb.1.1.1, hb.1.1.2, hb.1.2, hb.2]
        decide
  · obtain ⟨c, ds, hEq, hd, hne⟩ := natDigits_head_ne_zero n hn
    have hval : List.foldl (fun a c => a * 10 + (c.toNat - 48)) (c.toNat - 48) ds = n := by
      have h0 := foldl_digits_natDigits n 0
      rw [hEq] at h0
      simp only [List.foldl, Nat.zero_mul, Nat.zero_add] at h0
      omega
    have hdig : ∀ c' ∈ ds, isDigitCh c' = true := by
      intro c' hc'
      exact natDigits_all_digits n c' (by rw [hEq]; exact List.mem_cons_of_mem c hc')
    have hbd : rest = [] ∨ ∃ c t, rest = c :: t ∧ isDigitCh c = false := by
      cases rest with
      | nil => exact Or.inl rfl
      | cons d t =>
          refine Or.inr ⟨d, t, rfl, ?_⟩
          simp only [numBoundary, Bool.and_eq_true, Bool.not_eq_true',
            decide_eq_false_iff_not] at hb
          exact hb.1.1.1
    rw [hEq]
    simp only [List.cons_append]
    simp only [parseNatNum]
    rw [hd]
    simp only [if_true, hne, if_false]
    rw [parseDigits_spec ds rest (c.toNat - 48) hdig hbd]
    simp only [hval]
    cases rest with
    | nil => rfl
    | cons d t =>
        simp only [numBoundary, Bool.and_eq_true, Bool.not_eq_true',
          decide_eq_false_iff_not] at hb
        simp [hb.1.1.2, hb.1.2, hb.2]

theorem parseNumber_intChars (i : Int) (rest : List Char) (hb : numBoundary rest = true) :
    parseNumber (intChars i ++ rest) = some (i, rest) := by
  unfold intChars
  by_cases hneg : i < 0
  · simp only [hneg, if_true, List.cons_append]
    simp only [parseNumber]
    rw [parseNatNum_natDigits i.natAbs rest hb]
    have : -(i.natAbs : Int) = i := by omega
    simp only []
    rw [this]
  · simp only [hneg, if_false]
    obtain ⟨c, ds, hEq⟩ : ∃ c ds, natDigits i.natAbs = c :: ds := by
      cases h : natDigits i.natAbs with
      | nil => exact absurd h (natDigits_ne_nil _)
      | cons c ds => exact ⟨c, ds, rfl⟩
    have hd : isDigitCh c = true := natDigits_all_digits _ c (by rw [hEq]; simp)
    have hcm : ¬(c = '-') := by
      intro he
      subst he
      simp [isDigitCh] at hd
    rw [hEq]
    simp only [List.cons_append]
    have hred : parseNumber (c :: (ds ++ rest)) =
        (match parseNatNum (c :: (ds ++ rest)) with
         | some (n, r) => some ((n : Int), r)
         | none => none) := by
      unfold parseNumber
      split
      · rename_i cs heq
        exact absurd (List.head_eq_of_cons_eq heq.symm).symm hcm
      · rfl
    rw [hred, ← List.cons_append, ← hEq]
    rw [parseNatNum_natDigits i.natAbs rest hb]
    have : (i.natAbs : Int) = i := by omega
    simp [this]

theorem hexVal_hexDigitChar (n : Nat) (h : n < 16) : hexVal (hexDigitChar n) = some n := by
  unfold hexVal hexDigitChar
  by_cases h10 : n < 10
  · simp only [h10, if_true]
    rw [digitChar_toNat n h10]
    have h1 : (48 ≤ 48 + n && 48 + n ≤ 57) = true := by simp; omega
    simp only [h1, if_true]
    congr 1
    omega
  · simp only [h10, if_false]
    have ht : (Char.ofNat (87 + n)).toNat = 87 + n := charToNat_ofNat _ (by omega)
    rw [ht]
    have h1 : (48 ≤ 87 + n && 87 + n ≤ 57) = false := by simp; omega
    have h2 : (97 ≤ 87 + n && 87 + n ≤ 102) = true := by simp; omega
    simp only [h1, h2, if_false, if_true, Bool.false_eq_true]
    congr 1
    omega


theorem parseStringBody_raw (c : Char) (tail : List Char) (h1 : ¬(c = '"'))
    (h2 : ¬(c = '\\')) :
    parseStringBody (c :: tail) =
      (if c.toNat < 32 then none
       else match parseStringBody tail with
         | some (l, r) => some (c :: l, r) | none => none) := by
  conv_lhs => unfold parseStringBody
  split
  all_goals
    rename_i heq
    first
      | exact List.noConfusion heq
      | exact absurd (List.cons.inj heq).1 h1
      | exact absurd (List.cons.inj heq).1 h2
      | (obtain ⟨hc, ht⟩ := List.cons.inj heq
         subst hc
         subst ht
         rfl)

theorem parseStringBody_escBody (l : List Char) : ∀ rest : List Char,
    parseStringBody (escBody l ++ '"' :: rest) = some (l, rest) := by
  induction l with
  | nil => intro rest; rfl
  | cons c cs ih =>
      intro rest
      show parseStringBody (escChar c ++ escBody cs ++ '"' :: rest) = some (c :: cs, rest)
      unfold escChar
      by_cases h1 : c = '"'
      · subst h1
        simp only [if_true]
        simp [parseStringBody, escDecode, ih]
      · simp only [h1, if_false]
        by_cases h2 : c = '\\'
        · subst h2
          simp only [if_true]
          simp [parseStringBody, escDecode, ih]
        · simp only [h2, if_false]
          by_cases h3 : c = '\x08'
          · subst h3
            simp only [if_true]
            simp [parseStringBody, escDecode, ih]
          · simp only [h3, if_false]
            by_cases h4 : c = '\x09'
            · subst h4
              simp only [if_true]
              simp [parseStringBody, escDecode, ih]
            · simp only [h4, if_false]
              by_cases h5 : c = '\x0a'
              · subst h5
                simp only [if_true]
                simp [parseStringBody, escDecode, ih]
              · simp only [h5, if_false]
                by_cases h6 : c = '\x0c'
                · subst h6
                  simp only [if_true]
                  simp [parseStringBody, escDecode, ih]
                · simp only [h6, if_false]
                  by_cases h7 : c = '\x0d'
                  · subst h7
                    simp only [if_true]
                    simp [parseStringBody, escDecode, ih]
                  · simp only [h7, if_false]
                    by_cases h8 : c.toNat < 32
                    · simp only [h8, if_true]
                      simp only [List.cons_append, List.append_assoc]
                      simp only [parseStringBody]
                      rw [hexVal_hexDigitChar (c.toNat / 16) (by omega),
                        hexVal_hexDigitChar (c.toNat % 16) (by omega)]
                      have hv0 : hexVal '0' = some 0 := by decide
                      rw [hv0]
                      simp only []
                      have hcode : ((0 * 16 + 0) * 16 + c.toNat / 16) * 16 + c.toNat % 16
                          = c.toNat := by omega
                      rw [hcode]
                      have hvalid : c.toNat.isValidChar := Or.inl (by omega)
                      simp only [hvalid, if_true]
                      simp only [List.nil_append]
                      rw [ih rest]
                      simp [Char.ofNat_toNat]
                    · simp only [h8, if_false]
                      simp only [List.cons_append]
                      rw [parseStringBody_raw c _ h1 h2]
                      simp only [h8, if_false, List.nil_append]
                      rw [ih rest]

theorem skipWs_all_ws (pre : List Char) (l : List Char)
    (h : ∀ c ∈ pre, isWsChar c = true) : skipWs (pre ++ l) = skipWs l := by
  induction pre with
  | nil => rfl
  | cons c t ih =>
      simp only [List.cons_append]
      conv_lhs => unfold skipWs
      rw [h c (by simp)]
      simp only [if_true]
      exact ih (fun c' hc' => h c' (by simp [hc']))

theorem skipWs_padN (n : Nat) (l : List Char) : skipWs (padN n ++ l) = skipWs l := by
  apply skipWs_all_ws
  intro c hc
  unfold padN at hc
  rw [List.eq_of_mem_replicate hc]
  rfl

theorem skipWs_not_ws (c : Char) (l : List Char) (h : isWsChar c = false) :
    skipWs (c :: l) = c :: l := by
  unfold skipWs
  rw [h]
  rfl

theorem isWsChar_false_of_digit (c : Char) (h : isDigitCh c = true) : isWsChar c = false := by
  unfold isDigitCh at h
  simp only [Bool.and_eq_true, decide_eq_true_eq] at h
  unfold isWsChar
  have h32 : ¬(c = ' ') := fun he => by
    have h' := congrArg Char.toNat he
    rw [show (' ').toNat = 32 from by decide] at h'
    omega
  have h9 : ¬(c = '\t') := fun he => by
    have h' := congrArg Char.toNat he
    rw [show ('\t').toNat = 9 from by decide] at h'
    omega
  have h10 : ¬(c = '\n') := fun he => by
    have h' := congrArg Char.toNat he
    rw [show ('\n').toNat = 10 from by decide] at h'
    omega
  have h13 : ¬(c = '\r') := fun he => by
    have h' := congrArg Char.toNat he
    rw [show ('\r').toNat = 13 from by decide] at h'
    omega
  simp [h32, h9, h10, h13]

theorem digit_ne_rbracket (c : Char) (h : isDigitCh c = true) : ¬(c = ']') := by
  unfold isDigitCh at h
  simp only [Bool.and_eq_true, decide_eq_true_eq] at h
  intro he
  have h' := congrArg Char.toNat he
  rw [show (']').toNat = 93 from by decide] at h'
  omega

theorem printVal_head (ind : Nat) (j : JsonVal) :
    ∃ c cs, printVal ind j = c :: cs ∧ isWsChar c = false ∧ ¬(c = ']') := by
  cases j with
  | null => exact ⟨'n', ['u', 'l', 'l'], by simp [printVal], by decide, by decide⟩
  | bool b =>
      cases b with
      | true => exact ⟨'t', ['r', 'u', 'e'], by simp [printVal], by decide, by decide⟩
      | false => exact ⟨'f', ['a', 'l', 's', 'e'], by simp [printVal], by decide, by decide⟩
  | str s => exact ⟨'"', escBody s.data ++ ['"'], by simp [printVal, strLit], by decide, by decide⟩
  | arr xs =>
      cases xs with
      | nil => exact ⟨'[', [']'], by simp [printVal], by decide, by decide⟩
      | cons x t =>
          exact ⟨'[', '\n' :: (printElems ind x t ++ '\n' :: (padN ind ++ [']'])),
            by simp [printVal], by decide, by decide⟩
  | obj m =>
      cases m with
      | nil => exact ⟨'{', ['}'], by simp [printVal], by decide, by decide⟩
      | cons f t =>
          exact ⟨'{', '\n' :: (printMembers ind f t ++ '\n' :: (padN ind ++ ['}'])),
            by simp [printVal], by decide, by decide⟩
  | num i =>
      simp only [printVal]
      unfold intChars
      by_cases hneg : i < 0
      · exact ⟨'-', natDigits i.natAbs, by simp [hneg], by decide, by decide⟩
      · obtain ⟨c, ds, hEq⟩ : ∃ c ds, natDigits i.natAbs = c :: ds := by
          cases h : natDigits i.natAbs with
          | nil => exact absurd h (natDigits_ne_nil _)
          | cons c ds => exact ⟨c, ds, rfl⟩
        have hd : isDigitCh c = true := natDigits_all_digits _ c (by rw [hEq]; simp)
        exact ⟨c, ds, by simp [hneg, hEq], isWsChar_false_of_digit c hd,
          digit_ne_rbracket c hd⟩

theorem skipWs_printVal (ind : Nat) (j : JsonVal) (rest : List Char) :
    skipWs (printVal ind j ++ rest) = printVal ind j ++ rest := by
  obtain ⟨c, cs, hEq, hws, -⟩ := printVal_head ind j
  rw [hEq]
  simp only [List.cons_append]
  exact skipWs_not_ws c _ hws

theorem jsize_pos (j : JsonVal) : 1 ≤ jsize j := by
  cases j <;> simp [jsize]

theorem jsizeL_le_printElems (ind : Nat) (x : JsonVal) (xs : List JsonVal)
    (hel : ∀ y ∈ x :: xs, ∀ ind', jsize y ≤ (printVal ind' y).length + 1) :
    jsizeL (x :: xs) ≤ (printElems ind x xs).length + 1 := by
  induction xs generalizing x with
  | nil =>
      have hx := hel x (by simp) (ind + 2)
      simp only [printElems, jsizeL, List.length_append, padN, List.length_replicate]
      omega
  | cons y ys ih =>
      have hx := hel x (by simp) (ind + 2)
      have hys := ih y (fun z hz ind' => hel z (List.mem_cons_of_mem x hz) ind')
      simp only [printElems, jsizeL, List.length_append, padN, List.length_replicate,
        List.length_cons] at hys ⊢
      omega

theorem jsizeM_le_printMembers (ind : Nat) (f : String × JsonVal)
    (fs : List (String × JsonVal))
    (hel : ∀ kv ∈ f :: fs, ∀ ind', jsize kv.2 ≤ (printVal ind' kv.2).length + 1) :
    jsizeM (f :: fs) ≤ (printMembers ind f fs).length + 1 := by
  induction fs generalizing f with
  | nil =>
      obtain ⟨k, v⟩ := f
      have hx := hel (k, v) (by simp) (ind + 2)
      simp only [printMembers, jsizeM, List.length_append, padN, List.length_replicate,
        List.length_cons] at hx ⊢
      omega
  | cons g gs ih =>
      obtain ⟨k, v⟩ := f
      have hx := hel (k, v) (by simp) (ind + 2)
      have hgs := ih g (fun z hz ind' => hel z (List.mem_cons_of_mem (k, v) hz) ind')
      simp only [printMembers, jsizeM, List.length_append, padN, List.length_replicate,
        List.length_cons] at hx hgs ⊢
      omega

theorem jsize_le_print_aux : ∀ (n : Nat) (j : JsonVal), sizeOf j = n →
    ∀ ind, jsize j ≤ (printVal ind j).length + 1 := by
  intro n
  induction n using Nat.strong_induction_on with
  | _ n ih =>
      intro j hsz ind
      cases j with
      | null => simp [jsize, printVal]
      | bool b => cases b <;> simp [jsize, printVal]
      | num i => simp only [jsize]; omega
      | str s => simp only [jsize]; omega
      | arr xs =>
          cases xs with
          | nil => simp [jsize, jsizeL, printVal]
          | cons x t =>
              have hel : ∀ y ∈ x :: t, ∀ ind', jsize y ≤ (printVal ind' y).length + 1 := by
                intro y hy ind'
                have hlt : sizeOf y < n := by
                  subst hsz
                  have h1 : sizeOf y < sizeOf (x :: t) := List.sizeOf_lt_of_mem hy
                  have h2 : sizeOf (JsonVal.arr (x :: t)) = 1 + sizeOf (x :: t) := by
                    simp
                  omega
                exact ih _ hlt y rfl ind'
              have hb := jsizeL_le_printElems ind x t hel
              simp only [jsize, printVal, List.length_append, List.length_cons, padN,
                List.length_replicate] at hb ⊢
              omega
      | obj m =>
          cases m with
          | nil => simp [jsize, jsizeM, printVal]
          | cons f t =>
              have hel : ∀ kv ∈ f :: t, ∀ ind', jsize kv.2 ≤ (printVal ind' kv.2).length + 1 := by
                intro kv hkv ind'
                have hlt : sizeOf kv.2 < n := by
                  subst hsz
                  have h1 : sizeOf kv < sizeOf (f :: t) := List.sizeOf_lt_of_mem hkv
                  have h2 : sizeOf (JsonVal.obj (f :: t)) = 1 + sizeOf (f :: t) := by
                    simp
                  obtain ⟨k, v⟩ := kv
                  have h3 : sizeOf ((k, v) : String × JsonVal) = 1 + sizeOf k + sizeOf v := by
                    simp
                  simp only at h1 h3 ⊢
                  omega
                exact ih _ hlt kv.2 rfl ind'
              have hb := jsizeM_le_printMembers ind f t hel
              simp only [jsize, printVal, List.length_append, List.length_cons, padN,
                List.length_replicate] at hb ⊢
              omega

theorem jsize_le_print (j : JsonVal) (ind : Nat) :
    jsize j ≤ (printVal ind j).length + 1 :=
  jsize_le_print_aux (sizeOf j) j rfl ind

theorem jsGet_eq_none_iff (m : List (String × JsonVal)) (k : String) :
    jsGet m k = none ↔ ¬(k ∈ m.map Prod.fst) := by
  induction m with
  | nil => simp [jsGet]
  | cons kv rest ih =>
      obtain ⟨k', v'⟩ := kv
      by_cases h : k' = k
      · subst h
        simp [jsGet]
      · simp only [jsGet, h, if_false, List.map_cons, List.mem_cons]
        rw [ih]
        constructor
        · intro hn hor
          cases hor with
          | inl he => exact h he.symm
          | inr he => exact hn he
        · intro hn hm
          exact hn (Or.inr hm)

theorem jsSet_append_fresh (m : List (String × JsonVal)) (k : String) (v : JsonVal)
    (h : ¬(k ∈ m.map Prod.fst)) : jsSet m k v = m ++ [(k, v)] := by
  induction m with
  | nil => rfl
  | cons kv rest ih =>
      obtain ⟨k', v'⟩ := kv
      simp only [List.map_cons, List.mem_cons] at h
      push_neg at h
      have hne : ¬(k' = k) := fun he => h.1 (he ▸ rfl)
      simp [jsSet, hne, ih h.2]

theorem foldl_jsSet_of_nodup (ms : List (String × JsonVal)) :
    ∀ acc : List (String × JsonVal),
    ((acc.map Prod.fst ++ ms.map Prod.fst).Nodup) →
    ms.foldl (fun a kv => jsSet a kv.1 kv.2) acc = acc ++ ms := by
  induction ms with
  | nil => intro acc _; simp
  | cons kv rest ih =>
      intro acc h
      obtain ⟨k, v⟩ := kv
      simp only [List.map_cons] at h
      have hdisj := List.disjoint_of_nodup_append h
      have hk : ¬(k ∈ acc.map Prod.fst) := fun hmem => hdisj hmem (by simp)
      simp only [List.foldl]
      rw [jsSet_append_fresh acc k v hk]
      rw [ih (acc ++ [(k, v)]) (by
        simp only [List.map_append, List.map_cons, List.map_nil]
        rw [List.append_assoc]
        simpa using h)]
      simp

theorem objOfMembers_self (m : List (String × JsonVal))
    (h : (m.map Prod.fst).Nodup) : objOfMembers m = m := by
  unfold objOfMembers
  rw [foldl_jsSet_of_nodup m [] (by simpa using h)]
  simp

theorem stringMk_data (s : String) : String.mk s.data = s := rfl

theorem parseValue_default_case (fuel : Nat) (c : Char) (cs : List Char)
    (hn : ¬(c = 'n')) (ht : ¬(c = 't')) (hf : ¬(c = 'f')) (hq : ¬(c = '"'))
    (hlb : ¬(c = '[')) (hcb : ¬(c = '{')) :
    parseValue (fuel + 1) (c :: cs) =
      (match parseNumber (c :: cs) with
       | some (i, r) => some (.num i, r)
       | none => none) := by
  conv_lhs => unfold parseValue
  split
  all_goals
    rename_i heq
    first
      | exact absurd (List.cons.inj heq).1 hn
      | exact absurd (List.cons.inj heq).1 ht
      | exact absurd (List.cons.inj heq).1 hf
      | exact absurd (List.cons.inj heq).1 hq
      | exact absurd (List.cons.inj heq).1 hlb
      | exact absurd (List.cons.inj heq).1 hcb
      | rfl

theorem skipWs_printElems (ind : Nat) (x : JsonVal) (xs : List JsonVal) (tail : List Char) :
    skipWs (printElems ind x xs ++ tail)
      = printVal (ind + 2) x ++ (match xs with
          | [] => tail
          | y :: ys => ',' :: '\n' :: (printElems ind y ys ++ tail)) := by
  cases xs with
  | nil =>
      simp only [printElems, List.append_assoc]
      rw [skipWs_padN, skipWs_printVal]
  | cons y ys =>
      simp only [printElems, List.append_assoc, List.cons_append]
      rw [skipWs_padN, skipWs_printVal]

theorem skipWs_printMembers (ind : Nat) (f : String × JsonVal)
    (fs : List (String × JsonVal)) (tail : List Char) :
    skipWs (printMembers ind f fs ++ tail)
      = '"' :: (escBody f.1.data ++ '"' :: (':' :: ' ' :: (printVal (ind + 2) f.2
          ++ (match fs with
              | [] => tail
              | g :: gs => ',' :: '\n' :: (printMembers ind g gs ++ tail))))) := by
  obtain ⟨k, v⟩ := f
  cases fs with
  | nil =>
      simp only [printMembers, strLit, List.append_assoc, List.cons_append]
      rw [skipWs_padN]
      rw [skipWs_not_ws '"' _ (by decide)]
      simp [List.append_assoc]
  | cons g gs =>
      simp only [printMembers, strLit, List.append_assoc, List.cons_append]
      rw [skipWs_padN]
      rw [skipWs_not_ws '"' _ (by decide)]
      simp [List.append_assoc]

theorem digit_ne_char (c : Char) (h : isDigitCh c = true) (d : Char)
    (hd : d.toNat < 48 ∨ 57 < d.toNat) : ¬(c = d) := by
  intro he
  have h' := congrArg Char.toNat he
  unfold isDigitCh at h
  simp only [Bool.and_eq_true, decide_eq_true_eq] at h
  omega

theorem intChars_head (i : Int) : ∃ c cs, intChars i = c :: cs ∧
    ¬(c = 'n') ∧ ¬(c = 't') ∧ ¬(c = 'f') ∧ ¬(c = '"') ∧ ¬(c = '[') ∧ ¬(c = '{') := by
  unfold intChars
  by_cases hneg : i < 0
  · exact ⟨'-', natDigits i.natAbs, by simp [hneg], by decide, by decide, by decide,
      by decide, by decide, by decide⟩
  · obtain ⟨c, ds, hEq⟩ : ∃ c ds, natDigits i.natAbs = c :: ds := by
      cases h : natDigits i.natAbs with
      | nil => exact absurd h (natDigits_ne_nil _)
      | cons c ds => exact ⟨c, ds, rfl⟩
    have hd : isDigitCh c = true := natDigits_all_digits _ c (by rw [hEq]; simp)
    exact ⟨c, ds, by simp [hneg, hEq],
      digit_ne_char c hd 'n' (by decide), digit_ne_char c hd 't' (by decide),
      digit_ne_char c hd 'f' (by decide), digit_ne_char c hd '"' (by decide),
      digit_ne_char c hd '[' (by decide), digit_ne_char c hd '{' (by decide)⟩

theorem skipWs_cons_ws (c : Char) (l : List Char) (h : isWsChar c = true) :
    skipWs (c :: l) = skipWs l := by
  conv_lhs => unfold skipWs
  rw [h]
  simp

theorem parse_print_roundtrip : ∀ fuel : Nat,
    (∀ j : JsonVal, WfJson j → jsize j ≤ fuel → ∀ (ind : Nat) (rest : List Char),
      numBoundary rest = true →
      parseValue fuel (printVal ind j ++ rest) = some (j, rest)) ∧
    (∀ (x : JsonVal) (xs : List JsonVal), (∀ y ∈ x :: xs, WfJson y) →
      jsizeL (x :: xs) ≤ fuel → ∀ (ind : Nat) (rest : List Char),
      parseElems fuel (skipWs (printElems ind x xs ++ '\n' :: (padN ind ++ ']' :: rest)))
        = some (x :: xs, rest)) ∧
    (∀ (f : String × JsonVal) (fs : List (String × JsonVal)),
      (∀ kv ∈ f :: fs, WfJson kv.2) →
      jsizeM (f :: fs) ≤ fuel → ∀ (ind : Nat) (rest : List Char),
      parseMembers fuel (skipWs (printMembers ind f fs ++ '\n' :: (padN ind ++ '}' :: rest)))
        = some (f :: fs, rest)) := by
  intro fuel
  induction fuel with
  | zero =>
      refine ⟨?_, ?_, ?_⟩
      · intro j _ hsz
        have := jsize_pos j
        omega
      · intro x xs _ hsz
        simp only [jsizeL] at hsz
        omega
      · intro f fs _ hsz
        obtain ⟨k, v⟩ := f
        simp only [jsizeM] at hsz
        omega
  | succ fuel ih =>
      obtain ⟨ihP, ihQ, ihR⟩ := ih
      refine ⟨?_, ?_, ?_⟩
      · intro j wf hsz ind rest hrb
        cases wf with
        | null => simp [printVal, parseValue]
        | bool b => cases b <;> simp [printVal, parseValue]
        | num i =>
            obtain ⟨c, cs, hEq, h1, h2, h3, h4, h5, h6⟩ := intChars_head i
            simp only [printVal]
            rw [hEq]
            simp only [List.cons_append]
            rw [parseValue_default_case fuel c (cs ++ rest) h1 h2 h3 h4 h5 h6]
            have hpn : parseNumber (c :: (cs ++ rest)) = some (i, rest) := by
              rw [← List.cons_append, ← hEq]
              exact parseNumber_intChars i rest hrb
            rw [hpn]
        | str s =>
            simp only [printVal, strLit, List.cons_append, List.append_assoc,
              List.nil_append]
            simp only [parseValue]
            rw [parseStringBody_escBody]
        | arr xs hall =>
            cases xs with
            | nil =>
                simp only [printVal, List.cons_append, List.nil_append]
                simp only [parseValue]
                rw [skipWs_not_ws ']' rest (by decide)]
                rfl
            | cons x t =>
                have hszL : jsizeL (x :: t) ≤ fuel := by
                  simp only [jsize] at hsz
                  omega
                simp only [printVal, List.cons_append, List.append_assoc,
                  List.nil_append]
                simp only [parseValue]
                rw [skipWs_cons_ws '\n' _ (by decide)]
                have h0 := ihQ x t hall hszL ind rest
                rw [skipWs_printElems ind x t ('\n' :: (padN ind ++ ']' :: rest))] at h0
                rw [skipWs_printElems ind x t ('\n' :: (padN ind ++ ']' :: rest))]
                obtain ⟨c, cs', hEq, hws, hnb⟩ := printVal_head (ind + 2) x
                rw [hEq] at h0 ⊢
                simp only [List.cons_append] at h0 ⊢
                split
                · rename_i r2 heq
                  exact absurd (List.cons.inj heq).1 hnb
                · rw [h0]
        | obj m hall hnd =>
            cases m with
            | nil =>
                simp only [printVal, List.cons_append, List.nil_append]
                simp only [parseValue]
                rw [skipWs_not_ws '}' rest (by decide)]
                rfl
            | cons f fs =>
                have hszM : jsizeM (f :: fs) ≤ fuel := by
                  simp only [jsize] at hsz
                  omega
                simp only [printVal, List.cons_append, List.append_assoc,
                  List.nil_append]
                simp only [parseValue]
                rw [skipWs_cons_ws '\n' _ (by decide)]
                have h0 := ihR f fs hall hszM ind rest
                rw [skipWs_printMembers ind f fs ('\n' :: (padN ind ++ '}' :: rest))] at h0
                rw [skipWs_printMembers ind f fs ('\n' :: (padN ind ++ '}' :: rest))]
                split
                · rename_i r2 heq
                  exact absurd (List.cons.inj heq).1 (by decide)
                · rw [h0]
                  simp only []
                  rw [objOfMembers_self (f :: fs) hnd]
      · intro x xs hall hszL ind rest
        rw [skipWs_printElems ind x xs ('\n' :: (padN ind ++ ']' :: rest))]
        cases xs with
        | nil =>
            simp only []
            simp only [parseElems]
            have hjx : jsize x ≤ fuel := by
              simp only [jsizeL] at hszL
              omega
            rw [ihP x (hall x (by simp)) hjx (ind + 2)
              ('\n' :: (padN ind ++ ']' :: rest)) (by rfl)]
            simp only []
            rw [skipWs_cons_ws '\n' _ (by decide), skipWs_padN,
              skipWs_not_ws ']' rest (by decide)]
            rfl
        | cons y ys =>
            simp only []
            simp only [parseElems]
            have hjx : jsize x ≤ fuel := by
              simp only [jsizeL] at hszL
              omega
            have hjys : jsizeL (y :: ys) ≤ fuel := by
              have := jsize_pos x
              simp only [jsizeL] at hszL ⊢
              omega
            rw [ihP x (hall x (by simp)) hjx (ind + 2)
              (',' :: '\n' :: (printElems ind y ys ++ '\n' :: (padN ind ++ ']' :: rest)))
              (by rfl)]
            simp only []
            rw [skipWs_not_ws ',' _ (by decide)]
            simp only []
            rw [skipWs_cons_ws '\n' _ (by decide)]
            rw [ihQ y ys (fun z hz => hall z (List.mem_cons_of_mem x hz)) hjys ind rest]
      · intro f fs hall hszM ind rest
        obtain ⟨k, v⟩ := f
        rw [skipWs_printMembers ind (k, v) fs ('\n' :: (padN ind ++ '}' :: rest))]
        simp only [parseMembers]
        rw [parseStringBody_escBody]
        simp only []
        rw [skipWs_not_ws ':' _ (by decide)]
        simp only []
        rw [skipWs_cons_ws ' ' _ (by decide), skipWs_printVal]
        have hjv : jsize v ≤ fuel := by
          simp only [jsizeM] at hszM
          omega
        cases fs with
        | nil =>
            simp only []
            rw [ihP v (hall (k, v) (by simp)) hjv (ind + 2)
              ('\n' :: (padN ind ++ '}' :: rest)) (by rfl)]
            simp only []
            rw [skipWs_cons_ws '\n' _ (by decide), skipWs_padN,
              skipWs_not_ws '}' rest (by decide)]
            simp [stringMk_data]
        | cons g gs =>
            simp only []
            rw [ihP v (hall (k, v) (by simp)) hjv (ind + 2)
              (',' :: '\n' :: (printMembers ind g gs ++ '\n' :: (padN ind ++ '}' :: rest)))
              (by rfl)]
            simp only []
            rw [skipWs_not_ws ',' _ (by decide)]
            simp only []
            rw [skipWs_cons_ws '\n' _ (by decide)]
            rw [ihR g gs (fun z hz => hall z (List.mem_cons_of_mem (k, v) hz))
              (by
                have := jsize_pos v
                simp only [jsizeM] at hszM ⊢
                omega) ind rest]

theorem jsonParse_stringify (j : JsonVal) (wf : WfJson j) :
    jsonParse (jsonStringify2 j) = some j := by
  have hrt := (parse_print_roundtrip ((printVal 0 j).length + 1)).1 j wf
    (jsize_le_print j 0) 0 [] (by decide)
  rw [List.append_nil] at hrt
  unfold jsonParse jsonStringify2
  have hd : (String.mk (printVal 0 j)).data = printVal 0 j := rfl
  rw [hd]
  have h1 : skipWs (printVal 0 j) = printVal 0 j := by
    have h2 := skipWs_printVal 0 j []
    rwa [List.append_nil] at h2
  rw [h1, hrt]
  simp [skipWs]

theorem mem_jsSet (m : List (String × JsonVal)) (k : String) (v : JsonVal) :
    ∀ kv ∈ jsSet m k v, kv = (k, v) ∨ kv ∈ m := by
  induction m with
  | nil =>
      intro kv h
      simp [jsSet] at h
      exact Or.inl h
  | cons p rest ih =>
      obtain ⟨k₀, v₀⟩ := p
      intro kv h
      by_cases h0 : k₀ = k
      · subst h0
        simp only [jsSet] at h
        rw [if_pos trivial] at h
        rw [List.mem_cons] at h
        cases h with
        | inl he => exact Or.inl (by rw [he])
        | inr hm => exact Or.inr (List.mem_cons_of_mem _ hm)
      · simp only [jsSet, if_neg h0, List.mem_cons] at h
        cases h with
        | inl he => exact Or.inr (by simp [he])
        | inr hm =>
            cases ih kv hm with
            | inl he => exact Or.inl he
            | inr hm' => exact Or.inr (List.mem_cons_of_mem _ hm')

theorem jsSet_fst_nodup (m : List (String × JsonVal)) (k : String) (v : JsonVal)
    (h : (m.map Prod.fst).Nodup) : ((jsSet m k v).map Prod.fst).Nodup := by
  induction m with
  | nil => simp [jsSet]
  | cons p rest ih =>
      obtain ⟨k₀, v₀⟩ := p
      simp only [List.map_cons, List.nodup_cons] at h
      by_cases h0 : k₀ = k
      · subst h0
        simp only [jsSet]
        rw [if_pos trivial]
        simp only [List.map_cons, List.nodup_cons]
        exact h
      · simp only [jsSet, if_neg h0, List.map_cons, List.nodup_cons]
        refine ⟨?_, ih h.2⟩
        intro hmem
        rw [List.mem_map] at hmem
        obtain ⟨kv, hkv, hfst⟩ := hmem
        cases mem_jsSet rest k v kv hkv with
        | inl he =>
            rw [he] at hfst
            exact h0 hfst.symm
        | inr hm =>
            exact h.1 (by rw [List.mem_map]; exact ⟨kv, hm, hfst⟩)

theorem foldl_jsSet_nodup (ms : List (String × JsonVal)) :
    ∀ acc : List (String × JsonVal), (acc.map Prod.fst).Nodup →
    ((ms.foldl (fun a kv => jsSet a kv.1 kv.2) acc).map Prod.fst).Nodup := by
  induction ms with
  | nil => intro acc h; simpa using h
  | cons p rest ih =>
      intro acc h
      simp only [List.foldl]
      exact ih _ (jsSet_fst_nodup acc p.1 p.2 h)

theorem foldl_jsSet_mem (ms : List (String × JsonVal)) :
    ∀ (acc : List (String × JsonVal)) (kv : String × JsonVal),
    kv ∈ ms.foldl (fun a kv => jsSet a kv.1 kv.2) acc → kv ∈ acc ∨ kv ∈ ms := by
  induction ms with
  | nil => intro acc kv h; exact Or.inl (by simpa using h)
  | cons p rest ih =>
      intro acc kv h
      simp only [List.foldl] at h
      cases ih _ kv h with
      | inl h1 =>
          cases mem_jsSet acc p.1 p.2 kv h1 with
          | inl he => exact Or.inr (by simp [he])
          | inr hm => exact Or.inl hm
      | inr h2 => exact Or.inr (List.mem_cons_of_mem _ h2)

theorem objOfMembers_nodup (ms : List (String × JsonVal)) :
    ((objOfMembers ms).map Prod.fst).Nodup :=
  foldl_jsSet_nodup ms [] (by simp)

theorem objOfMembers_mem (ms : List (String × JsonVal)) :
    ∀ kv ∈ objOfMembers ms, kv ∈ ms := fun kv h =>
  (foldl_jsSet_mem ms [] kv h).resolve_left (by simp)

theorem parse_wf : ∀ fuel : Nat,
    (∀ l j rest, parseValue fuel l = some (j, rest) → WfJson j) ∧
    (∀ l xs rest, parseElems fuel l = some (xs, rest) → ∀ x ∈ xs, WfJson x) ∧
    (∀ l ms rest, parseMembers fuel l = some (ms, rest) → ∀ kv ∈ ms, WfJson kv.2) := by
  intro fuel
  induction fuel with
  | zero =>
      refine ⟨?_, ?_, ?_⟩
      · intro l j rest h
        exact Option.noConfusion h
      · intro l xs rest h
        exact Option.noConfusion h
      · intro l ms rest h
        exact Option.noConfusion h
  | succ fuel ih =>
      obtain ⟨ihP, ihQ, ihR⟩ := ih
      refine ⟨?_, ?_, ?_⟩
      · intro l j rest h
        unfold parseValue at h
        split at h
        · simp only [Option.some.injEq, Prod.mk.injEq] at h
          rw [← h.1]
          exact .null
        · simp only [Option.some.injEq, Prod.mk.injEq] at h
          rw [← h.1]
          exact .bool true
        · simp only [Option.some.injEq, Prod.mk.injEq] at h
          rw [← h.1]
          exact .bool false
        · split at h
          · rename_i s r1 heq
            simp only [Option.some.injEq, Prod.mk.injEq] at h
            rw [← h.1]
            exact .str _
          · exact Option.noConfusion h
        · split at h
          · simp only [Option.some.injEq, Prod.mk.injEq] at h
            rw [← h.1]
            exact .arr [] (by intro x hx; exact absurd hx (List.not_mem_nil x))
          · split at h
            · rename_i xs r1 heq
              simp only [Option.some.injEq, Prod.mk.injEq] at h
              rw [← h.1]
              exact .arr xs (ihQ _ _ _ heq)
            · exact Option.noConfusion h
        · split at h
          · simp only [Option.some.injEq, Prod.mk.injEq] at h
            rw [← h.1]
            exact .obj [] (by intro kv hkv; exact absurd hkv (List.not_mem_nil kv))
              (by simp)
          · split at h
            · rename_i ms r1 heq
              simp only [Option.some.injEq, Prod.mk.injEq] at h
              rw [← h.1]
              exact .obj _
                (fun kv hkv => ihR _ _ _ heq kv (objOfMembers_mem ms kv hkv))
                (objOfMembers_nodup ms)
            · exact Option.noConfusion h
        · split at h
          · rename_i i r1 heq
            simp only [Option.some.injEq, Prod.mk.injEq] at h
            rw [← h.1]
            exact .num i
          · exact Option.noConfusion h
      · intro l xs rest h
        unfold parseElems at h
        split at h
        · exact Option.noConfusion h
        · rename_i v r heq1
          split at h
          · split at h
            · rename_i vs r3 heq2
              simp only [Option.some.injEq, Prod.mk.injEq] at h
              rw [← h.1]
              intro x hx
              cases hx with
              | head => exact ihP _ _ _ heq1
              | tail _ hm => exact ihQ _ _ _ heq2 x hm
            · exact Option.noConfusion h
          · simp only [Option.some.injEq, Prod.mk.injEq] at h
            rw [← h.1]
            intro x hx
            rw [List.mem_singleton] at hx
            rw [hx]
            exact ihP _ _ _ heq1
          · exact Option.noConfusion h
      · intro l ms rest h
        unfold parseMembers at h
        split at h
        · split at h
          · exact Option.noConfusion h
          · rename_i k r1 heq0
            split at h
            · split at h
              · exact Option.noConfusion h
              · rename_i v r3 heq1
                split at h
                · split at h
                  · rename_i ms' r5 heq2
                    simp only [Option.some.injEq, Prod.mk.injEq] at h
                    rw [← h.1]
                    intro kv hkv
                    cases hkv with
                    | head => exact ihP _ _ _ heq1
                    | tail _ hm => exact ihR _ _ _ heq2 kv hm
                  · exact Option.noConfusion h
                · simp only [Option.some.injEq, Prod.mk.injEq] at h
                  rw [← h.1]
                  intro kv hkv
                  rw [List.mem_singleton] at hkv
                  rw [hkv]
                  exact ihP _ _ _ heq1
                · exact Option.noConfusion h
            · exact Option.noConfusion h
        · exact Option.noConfusion h

theorem jsonParse_wf (s : String) (j : JsonVal) (h : jsonParse s = some j) :
    WfJson j := by
  unfold jsonParse at h
  split at h
  · rename_i v rest heq
    split at h
    · rw [← Option.some.inj h]
      exact (parse_wf _).1 _ _ _ heq
    · exact Option.noConfusion h
  · exact Option.noConfusion h

theorem jsGet_some_mem (m : List (String × JsonVal)) (k : String) (v : JsonVal)
    (h : jsGet m k = some v) : (k, v) ∈ m := by
  induction m with
  | nil => exact Option.noConfusion h
  | cons p rest ih =>
      obtain ⟨k₀, v₀⟩ := p
      by_cases h0 : k₀ = k
      · subst h0
        simp only [jsGet, if_pos trivial] at h
        rw [Option.some.inj h]
        exact List.mem_cons_self _ _
      · simp only [jsGet, if_neg h0] at h
        exact List.mem_cons_of_mem _ (ih h)

theorem tx3StarPaths_wf : WfJson tx3StarPaths := by
  refine .arr _ ?_
  intro x hx
  simp only [tx3StarPaths, List.mem_singleton] at hx
  rw [hx]
  exact .str _

theorem tx3Paths_wf : WfJson tx3Paths := by
  refine .arr _ ?_
  intro x hx
  simp only [tx3Paths, List.mem_singleton] at hx
  rw [hx]
  exact .str _

theorem wf_jsSet (m : List (String × JsonVal)) (k : String) (v : JsonVal)
    (h1 : ∀ kv ∈ m, WfJson kv.2) (h2 : (m.map Prod.fst).Nodup) (hv : WfJson v) :
    (∀ kv ∈ jsSet m k v, WfJson kv.2) ∧ ((jsSet m k v).map Prod.fst).Nodup := by
  refine ⟨?_, jsSet_fst_nodup m k v h2⟩
  intro kv hkv
  cases mem_jsSet m k v kv hkv with
  | inl he => rw [he]; exact hv
  | inr hm => exact h1 kv hm

theorem coFieldOf_wf (m : List (String × JsonVal)) (wf : WfJson (.obj m)) :
    (∀ kv ∈ coFieldOf m, WfJson kv.2) ∧ ((coFieldOf m).map Prod.fst).Nodup := by
  have hall : ∀ kv ∈ m, WfJson kv.2 := by
    cases wf with
    | obj m h1 h2 => exact h1
  unfold coFieldOf
  cases hco : jsGet m "compilerOptions" with
  | none => simp
  | some co =>
      cases co with
      | obj co' =>
          have hwf : WfJson (.obj co') := hall _ (jsGet_some_mem m _ _ hco)
          cases hwf with
          | obj _ h1 h2 => exact ⟨h1, h2⟩
      | null => simp
      | bool b => simp
      | num n => simp
      | str s => simp
      | arr xs => simp

theorem pathsFieldOf_wf (co : List (String × JsonVal))
    (h1 : ∀ kv ∈ co, WfJson kv.2) :
    (∀ kv ∈ pathsFieldOf co, WfJson kv.2) := by
  unfold pathsFieldOf
  cases hp : jsGet co "paths" with
  | none => simp
  | some p =>
      cases p with
      | obj p' =>
          have hwf : WfJson (.obj p') := h1 _ (jsGet_some_mem co _ _ hp)
          cases hwf with
          | obj _ ha hb => exact ha
      | null => simp
      | bool b => simp
      | num n => simp
      | str s => simp
      | arr xs => simp

theorem pathsFieldOf_nodup (co : List (String × JsonVal))
    (h1 : ∀ kv ∈ co, WfJson kv.2) :
    ((pathsFieldOf co).map Prod.fst).Nodup := by
  unfold pathsFieldOf
  cases hp : jsGet co "paths" with
  | none => simp
  | some p =>
      cases p with
      | obj p' =>
          have hwf : WfJson (.obj p') := h1 _ (jsGet_some_mem co _ _ hp)
          cases hwf with
          | obj _ ha hb => exact hb
      | null => simp
      | bool b => simp
      | num n => simp
      | str s => simp
      | arr xs => simp

theorem specTsconfigMerge_wf (m : List (String × JsonVal))
    (wf : WfJson (.obj m)) : WfJson (.obj (specTsconfigMerge m)) := by
  have hm : (∀ kv ∈ m, WfJson kv.2) ∧ (m.map Prod.fst).Nodup := by
    cases wf with
    | obj m h1 h2 => exact ⟨h1, h2⟩
  have hco := coFieldOf_wf m wf
  have hp1 : ∀ kv ∈ pathsFieldOf (coFieldOf m), WfJson kv.2 :=
    pathsFieldOf_wf _ hco.1
  have hp2 := pathsFieldOf_nodup _ hco.1
  have hP1 := wf_jsSet (pathsFieldOf (coFieldOf m)) "@tx3/*" tx3StarPaths hp1 hp2
    tx3StarPaths_wf
  have hP2 := wf_jsSet _ "@tx3" tx3Paths hP1.1 hP1.2 tx3Paths_wf
  have hPwf : WfJson (.obj (specPathsMerged m)) := .obj _ hP2.1 hP2.2
  have hC := wf_jsSet (coFieldOf m) "paths" (.obj (specPathsMerged m)) hco.1 hco.2
    hPwf
  have hCwf : WfJson (.obj (jsSet (coFieldOf m) "paths" (.obj (specPathsMerged m)))) :=
    .obj _ hC.1 hC.2
  have hT := wf_jsSet m "compilerOptions" _ hm.1 hm.2 hCwf
  exact .obj _ hT.1 hT.2

theorem specTsconfigMerge_shapeOk (m : List (String × JsonVal)) :
    tsconfigShapeOk (.obj (specTsconfigMerge m)) = true := by
  unfold tsconfigShapeOk specTsconfigMerge
  simp only []
  rw [jsGet_jsSet_self]
  simp only []
  rw [jsGet_jsSet_self]
  rfl

theorem specTsconfigMerge_idem (m : List (String × JsonVal)) :
    specTsconfigMerge (specTsconfigMerge m) = specTsconfigMerge m := by
  have hP1 : jsGet (specPathsMerged m) "@tx3/*" = some tx3StarPaths := by
    unfold specPathsMerged
    rw [jsGet_jsSet_ne _ _ _ _ (by decide), jsGet_jsSet_self]
  have hP2 : jsGet (specPathsMerged m) "@tx3" = some tx3Paths := by
    unfold specPathsMerged
    rw [jsGet_jsSet_self]
  have hco : coFieldOf (specTsconfigMerge m)
      = jsSet (coFieldOf m) "paths" (.obj (specPathsMerged m)) := by
    unfold coFieldOf specTsconfigMerge
    rw [jsGet_jsSet_self]
    rfl
  have hpaths : pathsFieldOf (jsSet (coFieldOf m) "paths" (.obj (specPathsMerged m)))
      = specPathsMerged m := by
    unfold pathsFieldOf
    rw [jsGet_jsSet_self]
  have hPM : specPathsMerged (specTsconfigMerge m) = specPathsMerged m := by
    show jsSet (jsSet (pathsFieldOf (coFieldOf (specTsconfigMerge m)))
      "@tx3/*" tx3StarPaths) "@tx3" tx3Paths = specPathsMerged m
    rw [hco, hpaths, jsSet_eq_of_get _ _ _ hP1, jsSet_eq_of_get _ _ _ hP2]
  have hgc : jsGet (specTsconfigMerge m) "compilerOptions"
      = some (.obj (jsSet (coFieldOf m) "paths" (.obj (specPathsMerged m)))) := by
    unfold specTsconfigMerge
    rw [jsGet_jsSet_self]
  show jsSet (specTsconfigMerge m) "compilerOptions"
      (.obj (jsSet (coFieldOf (specTsconfigMerge m)) "paths"
        (.obj (specPathsMerged (specTsconfigMerge m))))) = specTsconfigMerge m
  rw [hPM, hco, jsSet_jsSet_same]
  exact jsSet_eq_of_get _ _ _ hgc

theorem mergeTsconfig_idem (m : List (String × JsonVal)) :
    mergeTsconfig (.obj (specTsconfigMerge m)) = .ok (.obj (specTsconfigMerge m)) := by
  rw [mergeTsconfig_of_shapeOk _ (specTsconfigMerge_shapeOk m), specTsconfigMerge_idem]

/-- C8: applying `updateTsConfig`'s text-to-text transformation (parse, merge
in the TX3 path mappings, re-serialize with 2-space indentation) to its own
output reproduces that output exactly: the merge is idempotent at the level of
the emitted text. -/
theorem updateTsConfig_idempotent (t u : String)
    (h : updateTsConfigText t = Except.ok u) :
    updateTsConfigText u = Except.ok u := by
  unfold updateTsConfigText at h
  cases hp : jsonParse t with
  | none =>
      rw [hp] at h
      exact Except.noConfusion h
  | some j =>
      rw [hp] at h
      simp only [] at h
      cases hm : mergeTsconfig j with
      | error e =>
          rw [hm] at h
          exact Except.noConfusion h
      | ok j' =>
          rw [hm] at h
          simp only [Except.map] at h
          have hu : u = jsonStringify2 j' := (Except.ok.inj h).symm
          obtain ⟨m, hjm, hshape, hj'⟩ := mergeTsconfig_ok_inv j j' hm
          have hwf : WfJson j := jsonParse_wf t j hp
          rw [hjm] at hwf
          have hwf' : WfJson (.obj (specTsconfigMerge m)) := specTsconfigMerge_wf m hwf
          rw [hu, hj']
          unfold updateTsConfigText
          rw [jsonParse_stringify _ hwf']
          simp only []
          rw [mergeTsconfig_idem m]
          simp [Except.map]

theorem updateTsConfig_idempotent_witness :
    updateTsConfigText (jsonStringify2 (JsonVal.obj (specTsconfigMerge [])))
      = Except.ok (jsonStringify2 (JsonVal.obj (specTsconfigMerge []))) :=
  updateTsConfig_idempotent "\x7b\x7d" _ (by rfl)
